import Mathlib

/-!
Verification development for the outlook2ai normalization pipeline.

The development shallowly embeds the three core modules of the repository —
processors/text_processor.py (TextProcessor), core/email_processor.py
(EmailProcessor) and core/dataframe_manager.py (DataFrameManager) — as
executable Lean definitions and proves properties of them.

Modelling conventions used throughout:
* Python strings are lists of characters (Str); Python regular-expression
  character classes are modelled over their ASCII fragment (the repository
  only manipulates ASCII control data; text payloads flow through unchanged).
* Python dynamic values are the inductive type PyVal; None, numpy NaN and
  pandas NaT are all the constructor PyVal.pnone.
* Code that can raise is embedded in the Except monad with the exception
  message as a Str; a try/except handler becomes a match on the Except value.
* Timestamps are modelled as integer seconds since the Unix epoch.
-/

/-- Python strings, modelled as lists of characters. -/
abbrev Str := List Char

/-- Coercion from Lean string literals into the model. -/
def strL (s : String) : Str := s.data

namespace O2A

/-- Whitespace, as matched by the regex class backslash-s and by str.strip
(ASCII fragment: space, tab, newline, carriage return, vertical tab, form feed). -/
def isSpace (c : Char) : Bool :=
  c = ' ' || c = Char.ofNat 9 || c = Char.ofNat 10 || c = Char.ofNat 13 ||
  c = Char.ofNat 11 || c = Char.ofNat 12

/-- Word characters, as matched by the regex class backslash-w
(ASCII fragment: letters, digits, underscore). -/
def isWordChar (c : Char) : Bool :=
  (Char.isAlpha c) || (Char.isDigit c) || c = '_'

/-- Auxiliary scanner for whitespace collapsing: the flag records whether the
previous character was whitespace (i.e. we stand inside a run that has
already emitted its single replacement space). -/
def collapseAux : Bool → Str → Str
  | _, [] => []
  | inRun, c :: rest =>
    if isSpace c then
      (if inRun then collapseAux true rest else ' ' :: collapseAux true rest)
    else c :: collapseAux false rest

/-- re.sub of one-or-more whitespace by a single space: every maximal run of
whitespace characters is replaced by one space. -/
def collapse (s : Str) : Str := collapseAux false s

/-- Remove trailing whitespace. -/
def stripTrail (s : Str) : Str := (s.reverse.dropWhile isSpace).reverse

/-- Python str.strip(): remove leading and trailing whitespace. -/
def stripStr (s : Str) : Str := stripTrail (s.dropWhile isSpace)

/-- html.unescape, modelled on the core named character references that the
repository exercises (lt, gt, amp, quot, apos, nbsp, all with their closing
semicolon).  Python additionally decodes the full HTML5 entity table and
numeric references; no theorem below depends on those additional entities,
and every modelled decoding agrees with Python.  The scan is a single
left-to-right pass, so an entity produced by decoding is not re-decoded
(matching html.unescape, where the amp reference decodes to a literal
ampersand that is not reinterpreted). -/
def unescape : Str → Str
  | [] => []
  | c :: rest =>
    if c = '&' then
      match rest with
      | 'l' :: 't' :: ';' :: r => '<' :: unescape r
      | 'g' :: 't' :: ';' :: r => '>' :: unescape r
      | 'a' :: 'm' :: 'p' :: ';' :: r => '&' :: unescape r
      | 'q' :: 'u' :: 'o' :: 't' :: ';' :: r => '"' :: unescape r
      | 'a' :: 'p' :: 'o' :: 's' :: ';' :: r => Char.ofNat 39 :: unescape r
      | 'n' :: 'b' :: 's' :: 'p' :: ';' :: r => Char.ofNat 160 :: unescape r
      | r => c :: unescape r
    else c :: unescape rest

/-- Auxiliary scanner for tag stripping.  The second argument is none when the
scanner is outside any tag candidate, and some ins when the scanner has read
an opening angle bracket followed by the (reversed) characters ins, none of
which is a closing angle bracket.  A closing bracket after at least one inner
character ends a regex match (the whole candidate is dropped); a closing
bracket immediately after the opening one means the regex did not match at
that opening bracket, so both characters are emitted; end of input flushes an
unfinished candidate verbatim.  This reproduces the leftmost, non-overlapping
semantics of re.sub with the pattern: opening bracket, one or more
non-closing-bracket characters, closing bracket. -/
def stripTagsAux : Str → Option Str → Str
  | [], none => []
  | [], some ins => '<' :: ins.reverse
  | c :: rest, none =>
    if c = '<' then stripTagsAux rest (some [])
    else c :: stripTagsAux rest none
  | c :: rest, some ins =>
    if c = '>' then
      (if ins.isEmpty then '<' :: '>' :: stripTagsAux rest none
       else stripTagsAux rest none)
    else stripTagsAux rest (some (c :: ins))

/-- re.sub removing every angle-bracket-delimited tag (pattern: opening
bracket, one or more non-closing-bracket characters, closing bracket). -/
def stripTags (s : Str) : Str := stripTagsAux s none

/-- Given the characters after an opening angle bracket: does a tag start
there, i.e. is the first following closing bracket at distance at least two?
-/
def tagAt : Str → Bool
  | [] => false
  | c :: r => (c ≠ '>') && r.contains '>'

/-- The string contains an angle-bracket-delimited tag: some opening bracket
is followed, after at least one intervening non-closing-bracket character, by
a closing bracket. -/
def hasTag : Str → Bool
  | [] => false
  | c :: rest => ((c = '<') && tagAt rest) || hasTag rest

/-- Python str.split() with no separator: maximal runs of non-whitespace
characters, empty tokens dropped.  The accumulator holds the current token
reversed. -/
def splitWsAux : Str → Str → List Str
  | [], [] => []
  | [], tok => [tok.reverse]
  | c :: rest, tok =>
    if isSpace c then
      (if tok.isEmpty then splitWsAux rest [] else tok.reverse :: splitWsAux rest [])
    else splitWsAux rest (c :: tok)

/-- Python str.split() with no separator argument. -/
def splitWs (s : Str) : List Str := splitWsAux s []

/-- Join a list of strings with the given separator. -/
def joinSep (sep : Str) : List Str → Str
  | [] => []
  | [x] => x
  | x :: xs => x ++ sep ++ joinSep sep xs

/-- General tokenizer: maximal runs of characters satisfying keep (used for
the regex word-token and sentence-segment scans). -/
def tokensByAux (keep : Char → Bool) : Str → Str → List Str
  | [], [] => []
  | [], tok => [tok.reverse]
  | c :: rest, tok =>
    if keep c then tokensByAux keep rest (c :: tok)
    else (if tok.isEmpty then tokensByAux keep rest []
          else tok.reverse :: tokensByAux keep rest [])

/-- Maximal runs of characters satisfying keep. -/
def tokensBy (keep : Char → Bool) (s : Str) : List Str := tokensByAux keep s []

/-- Python str.split on the two-character separator newline-newline (used for
the paragraph count).  Non-overlapping, leftmost matches, empty segments
kept, exactly as str.split with an explicit separator.  The scanner is
indexed by fuel (one unit per character consumed) to stay structurally
recursive; the zero-fuel case is unreachable when run with the input length
as fuel. -/
def splitBlankAux : Nat → Str → Str → List Str
  | 0, s, tok => [tok.reverse ++ s]
  | _ + 1, [], tok => [tok.reverse]
  | fuel + 1, c :: rest, tok =>
    if c = Char.ofNat 10 then
      match rest with
      | r2 :: rest2 =>
        if r2 = Char.ofNat 10 then tok.reverse :: splitBlankAux fuel rest2 []
        else splitBlankAux fuel (r2 :: rest2) (c :: tok)
      | [] => [(c :: tok).reverse]
    else splitBlankAux fuel rest (c :: tok)

/-- Python str.split on a blank-line separator. -/
def splitBlank (s : Str) : List Str := splitBlankAux s.length s []

/-- str.replace of the carriage-return-newline pair by a newline
(non-overlapping, leftmost matches).  Fuel-indexed like splitBlankAux; the
zero-fuel case is unreachable when run with the input length as fuel. -/
def replaceCRLFAux : Nat → Str → Str
  | 0, s => s
  | _ + 1, [] => []
  | fuel + 1, c :: rest =>
    if c = Char.ofNat 13 then
      match rest with
      | r :: rest2 =>
        if r = Char.ofNat 10 then Char.ofNat 10 :: replaceCRLFAux fuel rest2
        else c :: replaceCRLFAux fuel (r :: rest2)
      | [] => [c]
    else c :: replaceCRLFAux fuel rest

/-- str.replace of the carriage-return-newline pair by a newline. -/
def replaceCRLF (s : Str) : Str := replaceCRLFAux s.length s

/-- str.replace of a carriage return by a newline (single characters, so a
character map). -/
def replaceCR (s : Str) : Str :=
  s.map (fun c => if c = Char.ofNat 13 then Char.ofNat 10 else c)

/-- Lower-casing (ASCII fragment of Python str.lower). -/
def lowerStr (s : Str) : Str := s.map Char.toLower

/-- Upper-casing (ASCII fragment of Python str.upper). -/
def upperStr (s : Str) : Str := s.map Char.toUpper

/-- Python substring membership (the in operator on strings). -/
def containsSub : Str → Str → Bool
  | pat, [] => pat.isEmpty
  | pat, c :: rest => pat.isPrefixOf (c :: rest) || containsSub pat rest

/-- Decimal digits of a natural number (Python str of a non-negative int). -/
def natRepr (n : Nat) : Str := Nat.toDigits 10 n

/-- Python str of an int. -/
def intRepr (n : Int) : Str :=
  if n < 0 then '-' :: natRepr n.natAbs else natRepr n.natAbs

/-- Numeric value of a list of decimal digits. -/
def digitsToNat (ds : Str) : Nat :=
  ds.foldl (fun acc c => acc * 10 + (c.toNat - 48)) 0

/-- pandas to_numeric applied to one string, modelled on plain decimal
literals: optional surrounding whitespace, optional sign, a non-empty digit
run, optionally followed by a point and a non-empty digit run.  pandas also
accepts exponent notation; no theorem below depends on that extra syntax, and
every string the model accepts is accepted by pandas with the same value.
Anything else fails to parse (none, which to_numeric with errors equal to
coerce turns into NaN). -/
def parseNum (s : Str) : Option Rat :=
  let t := stripStr s
  let signAndRest : Int × Str :=
    match t with
    | '-' :: r => (-1, r)
    | '+' :: r => (1, r)
    | _ => (1, t)
  let sign := signAndRest.1
  let t2 := signAndRest.2
  let ds := t2.takeWhile Char.isDigit
  let rest := t2.dropWhile Char.isDigit
  if ds.isEmpty then none
  else
    match rest with
    | [] => some ((sign * (digitsToNat ds : Int) : Int) : Rat)
    | '.' :: fr =>
      if fr.isEmpty || !(fr.all Char.isDigit) then none
      else
        let whole : Int := digitsToNat ds
        let num : Int := whole * (10 ^ fr.length) + (digitsToNat fr : Int)
        some ((sign : Rat) * mkRat num (10 ^ fr.length))
    | _ => none

/-- Truncation toward zero, as performed by numpy astype from float to int64. -/
def ratTrunc (q : Rat) : Int :=
  if q < 0 then -((-q).floor) else q.floor

/-- Number of days in a month of the proleptic Gregorian calendar. -/
def daysInMonth (y m : Int) : Int :=
  if m = 2 then
    (if y % 4 = 0 && (y % 100 ≠ 0 || y % 400 = 0) then 29 else 28)
  else if m = 4 || m = 6 || m = 9 || m = 11 then 30
  else 31

/-- Days since 1970-01-01 of a civil date (standard days-from-civil
computation over the proleptic Gregorian calendar). -/
def daysFromCivil (y m d : Int) : Int :=
  let y2 := if m ≤ 2 then y - 1 else y
  let era := (if y2 ≥ 0 then y2 else y2 - 399).fdiv 400
  let yoe := y2 - era * 400
  let mp := (m + 9) % 12
  let doy := (153 * mp + 2).fdiv 5 + d - 1
  let doe := yoe * 365 + yoe.fdiv 4 - yoe.fdiv 100 + doy
  era * 146097 + doe - 719468

/-- Parse an ISO date string of the form YYYY-MM-DD into seconds since the
epoch.  This models the common core of datetime.fromisoformat and pandas
to_datetime as the repository uses them: both accept this form with this
value, and a string this parser rejects either raises in fromisoformat
(caught by the caller) or is coerced to NaT by to_datetime.  Optional time
parts are not modelled; no theorem below depends on them. -/
def dtParse (s : Str) : Option Int :=
  match s with
  | [y1, y2, y3, y4, '-', m1, m2, '-', d1, d2] =>
    if [y1, y2, y3, y4, m1, m2, d1, d2].all Char.isDigit then
      let y : Int := digitsToNat [y1, y2, y3, y4]
      let m : Int := digitsToNat [m1, m2]
      let d : Int := digitsToNat [d1, d2]
      if 1 ≤ m && m ≤ 12 && 1 ≤ d && d ≤ daysInMonth y m then
        some (daysFromCivil y m d * 86400)
      else none
    else none
  | _ => none

/-- Weekday names as produced by strftime with the full-weekday directive. -/
def dayNames : List Str :=
  [strL "Monday", strL "Tuesday", strL "Wednesday", strL "Thursday",
   strL "Friday", strL "Saturday", strL "Sunday"]

/-- strftime full-weekday name of a timestamp (1970-01-01 was a Thursday). -/
def dayNameOf (t : Int) : Str :=
  (dayNames.get? (((t.fdiv 86400) + 3).emod 7).toNat).getD []

/-- The hour field of a timestamp (datetime.hour). -/
def hourOf (t : Int) : Int := (t.fdiv 3600).emod 24

/-- Civil date (year, month, day) from days since the epoch (standard
civil-from-days computation, inverse of daysFromCivil). -/
def civilFromDays (z0 : Int) : Int × Int × Int :=
  let z := z0 + 719468
  let era := (if z ≥ 0 then z else z - 146096).fdiv 146097
  let doe := z - era * 146097
  let yoe := (doe - doe.fdiv 1460 + doe.fdiv 36524 - doe.fdiv 146096).fdiv 365
  let y := yoe + era * 400
  let doy := doe - (365 * yoe + yoe.fdiv 4 - yoe.fdiv 100)
  let mp := (5 * doy + 2).fdiv 153
  let d := doy - (153 * mp + 2).fdiv 5 + 1
  let m := mp + (if mp < 10 then 3 else -9)
  (y + (if m ≤ 2 then 1 else 0), m, d)

/-- Zero-padded two-digit rendering of a small non-negative integer. -/
def pad2 (n : Int) : Str :=
  if n < 10 then '0' :: natRepr n.toNat else natRepr n.toNat

/-- ISO rendering of a timestamp, YYYY-MM-DD HH:MM:SS. -/
def dtRepr (t : Int) : Str :=
  let days := t.fdiv 86400
  let secs := t.emod 86400
  let ymd := civilFromDays days
  natRepr ymd.1.toNat ++ ('-' :: pad2 ymd.2.1) ++ ('-' :: pad2 ymd.2.2) ++
    (' ' :: pad2 (secs.fdiv 3600)) ++ (':' :: pad2 ((secs.fdiv 60).emod 60)) ++
    (':' :: pad2 (secs.emod 60))

/-- Python runtime values, as they flow through the pipeline.  None, numpy
NaN and pandas NaT are all pnone.  COM objects carry an attribute table in
which each attribute either raises with a message (Sum.inl) or returns a
value (Sum.inr); COM collections (Recipients, Attachments, ReplyRecipients)
carry their items and expose Count and one-based Item. -/
inductive PyVal where
  | str (s : Str)
  | int (n : Int)
  | float (q : Rat)
  | bool (b : Bool)
  | dt (t : Int)
  | pnone
  | list (xs : List PyVal)
  | pdict (xs : List (Str × PyVal))
  | obj (attrs : List (Str × (Str ⊕ PyVal)))
  | coll (items : List PyVal)

instance : Inhabited PyVal := ⟨PyVal.pnone⟩

/-- Python truthiness of a value. -/
def truthy : PyVal → Bool
  | .str s => !s.isEmpty
  | .int n => n != 0
  | .float q => q != 0
  | .bool b => b
  | .dt _ => true
  | .pnone => false
  | .list xs => !xs.isEmpty
  | .pdict xs => !xs.isEmpty
  | .obj _ => true
  | .coll xs => !xs.isEmpty

/-- Python str() of a value, as exercised by astype(str), f-strings and
string join.  pnone renders as nan (the astype(str) rendering of NaN, the
only way a missing value reaches this function in the pipeline).  Container
and COM values render as fixed marker strings rather than recursively; the
pipeline never renders a container in any theorem below. -/
def pyStrRepr : PyVal → Str
  | .str s => s
  | .int n => intRepr n
  | .float q => if q.den = 1 then intRepr q.num ++ strL ".0" else strL "float"
  | .bool b => if b then strL "True" else strL "False"
  | .pnone => strL "nan"
  | .dt t => dtRepr t
  | .list _ => strL "list"
  | .pdict _ => strL "dict"
  | .obj _ => strL "object"
  | .coll _ => strL "collection"

/-- EmailProcessor._safe_get_property: getattr with a default, inside
try/except returning the default.  A missing attribute yields the default
(getattr third argument); a raising attribute getter propagates out of
getattr and is caught by the handler, which also yields the default.
Attribute access on a non-object value yields the default (in the model only
obj values carry attributes). -/
def safeGet (v : PyVal) (name : Str) (dflt : PyVal) : PyVal :=
  match v with
  | .obj attrs =>
    match attrs.find? (fun p => p.1 == name) with
    | some (_, Sum.inr x) => x
    | some (_, Sum.inl _) => dflt
    | none => dflt
  | _ => dflt

/-- The Count attribute of a COM collection; on anything else the access
raises. -/
def pyCount : PyVal → Except Str Int
  | .coll items => .ok (items.length : Int)
  | _ => .error (strL "AttributeError: Count")

/-- The one-based Item method of a COM collection; out-of-range indices and
non-collections raise. -/
def pyItem : PyVal → Int → Except Str PyVal
  | .coll items, i =>
    if 1 ≤ i then
      match items.get? (i - 1).toNat with
      | some x => .ok x
      | none => .error (strL "IndexError: Item")
    else .error (strL "IndexError: Item")
  | _, _ => .error (strL "AttributeError: Item")

/-- str.startswith on a dynamic value: raises on non-strings. -/
def pyStartswith (v : PyVal) (p : Str) : Except Str Bool :=
  match v with
  | .str s => .ok (p.isPrefixOf s)
  | _ => .error (strL "AttributeError: startswith")

/-- str.upper on a dynamic value: raises on non-strings. -/
def pyUpper : PyVal → Except Str Str
  | .str s => .ok (upperStr s)
  | _ => .error (strL "AttributeError: upper")

/-- Python equality between attribute values, modelled structurally on the
scalar constructors; values of different shapes compare unequal.  (The
Python quirks equating bool with int and int with float do not matter here:
no theorem below depends on this comparison.) -/
def pyEqVal : PyVal → PyVal → Bool
  | .str a, .str b => a == b
  | .int a, .int b => a == b
  | .bool a, .bool b => a == b
  | .float a, .float b => a == b
  | .dt a, .dt b => a == b
  | .pnone, .pnone => true
  | _, _ => false

/-- Python dicts with string keys built by field-by-field assignment.  All
construction sites in the embedded code assign distinct keys, so a dict is
an association list in insertion order. -/
abbrev Rec := List (Str × PyVal)

/-- Key lookup in a record. -/
def lookupR (r : Rec) (k : Str) : Option PyVal :=
  (r.find? (fun p => p.1 == k)).map (fun p => p.2)

/-- Python slicing value[:n]: takes a prefix of a string or list, raises on
anything else. -/
def pySlice (v : PyVal) (n : Nat) : Except Str PyVal :=
  match v with
  | .str s => .ok (.str (s.take n))
  | .list xs => .ok (.list (xs.take n))
  | _ => .error (strL "TypeError: value is not subscriptable")

namespace TextProcessor

/-- Characters kept by clean_plain_text: word characters, whitespace and the
punctuation allow-set of its regex (dot, comma, exclamation mark, question
mark, semicolon, colon, hyphen, parentheses, square brackets, double quote,
apostrophe, at sign). -/
def isAllowedChar (c : Char) : Bool :=
  isWordChar c || isSpace c || c = '.' || c = ',' || c = '!' || c = '?' ||
  c = ';' || c = ':' || c = '-' || c = '(' || c = ')' || c = '[' || c = ']' ||
  c = '"' || c = Char.ofNat 39 || c = '@'

/-- The string body of TextProcessor.clean_html_content on the fallback path
(no markup parser available, BeautifulSoup is None): remove every
angle-bracket tag, decode HTML entities, collapse whitespace runs to single
spaces, strip.  The repository also has a BeautifulSoup path; the spec
claims under verification constrain the fallback path, which is the one
embedded here. -/
def cleanHtmlText (s : Str) : Str :=
  if s.isEmpty then []
  else stripStr (collapse (unescape (stripTags s)))

/-- TextProcessor.clean_html_content on dynamic values (fallback path).
Falsy input returns the empty string; a truthy non-string raises inside the
try block (re.sub rejects non-strings) and the handler returns the original
input unchanged. -/
def clean_html_content (v : PyVal) : PyVal :=
  if !(truthy v) then .str []
  else
    match v with
    | .str s => .str (cleanHtmlText s)
    | w => w

/-- The string body of TextProcessor.clean_plain_text: decode HTML entities,
collapse whitespace runs to single spaces, drop characters outside the
allow-set, strip. -/
def cleanPlainCore (s : Str) : Str :=
  stripStr ((collapse (unescape s)).filter isAllowedChar)

/-- TextProcessor.clean_plain_text on a Python string: empty input returns
the empty string, otherwise the cleaning body runs. -/
def clean_plain_text (s : Str) : Str :=
  if s.isEmpty then [] else cleanPlainCore s

/-- TextProcessor.clean_plain_text on dynamic values: falsy input returns
the empty string; a truthy non-string raises inside the try block
(html.unescape rejects non-strings) and the handler returns the original
input unchanged. -/
def cleanPlainVal (v : PyVal) : PyVal :=
  if !(truthy v) then .str []
  else
    match v with
    | .str s => .str (clean_plain_text s)
    | w => w

/-- Order-preserving deduplication.  Python builds list(set(matches)); the
set iteration order is modelled as first-occurrence order.  No theorem below
depends on the order or content of the extraction results. -/
def dedupFirst (xs : List Str) : List Str :=
  xs.foldl (fun acc x => if acc.contains x then acc else acc ++ [x]) []

/-- Characters that can occur inside a match of the email regex. -/
def isEmailChar (c : Char) : Bool :=
  Char.isAlphanum c || c = '.' || c = '_' || c = '%' || c = '+' || c = '-' || c = '@'

/-- Model of re.findall with the conservative local-part, at-sign, dotted
domain, alphabetic top-level pattern of extract_email_addresses: maximal
runs of email characters shaped like an address.  The word-boundary details
of the regex are approximated; no theorem below depends on the matched set.
-/
def findEmails (s : Str) : List Str :=
  (tokensBy isEmailChar s).filter (fun t =>
    let loc := t.takeWhile (fun c => c != '@')
    let rest := t.dropWhile (fun c => c != '@')
    match rest with
    | '@' :: dom =>
      !loc.isEmpty && !dom.isEmpty && dom.contains '.' &&
        (let tld := (dom.reverse.takeWhile (fun c => c != '.')).reverse
         decide (2 ≤ tld.length) && tld.all Char.isAlpha)
    | _ => false)

/-- TextProcessor.extract_email_addresses: empty-ish input yields the empty
list; re.findall raises on truthy non-strings (no enclosing handler). -/
def extract_email_addresses (v : PyVal) : Except Str PyVal :=
  if !(truthy v) then .ok (.list [])
  else
    match v with
    | .str s => .ok (.list ((dedupFirst (findEmails s)).map PyVal.str))
    | _ => .error (strL "TypeError: expected string or bytes-like object")

/-- Characters of the dashed or dotted phone pattern. -/
def isPhoneChar (c : Char) : Bool := Char.isDigit c || c = '-' || c = '.'

/-- Shape check for the dashed or dotted North-American phone pattern: ten
digits with optional single separators after the third and sixth digit. -/
def phoneShape : Str → Bool
  | [a, b, c, d, e, f, g, h, i, j] => [a, b, c, d, e, f, g, h, i, j].all Char.isDigit
  | [a, b, c, s1, d, e, f, s2, g, h, i, j] =>
    [a, b, c, d, e, f, g, h, i, j].all Char.isDigit &&
      (s1 = '-' || s1 = '.') && (s2 = '-' || s2 = '.')
  | _ => false

/-- Model of re.findall with the three phone patterns of
extract_phone_numbers, restricted to the dashed-or-dotted alternative (the
parenthesized and space-separated alternatives are not modelled; no theorem
below depends on the matched set). -/
def findPhones (s : Str) : List Str :=
  (tokensBy isPhoneChar s).filter phoneShape

/-- TextProcessor.extract_phone_numbers: empty-ish input yields the empty
list; re.findall raises on truthy non-strings (no enclosing handler). -/
def extract_phone_numbers (v : PyVal) : Except Str PyVal :=
  if !(truthy v) then .ok (.list [])
  else
    match v with
    | .str s => .ok (.list ((dedupFirst (findPhones s)).map PyVal.str))
    | _ => .error (strL "TypeError: expected string or bytes-like object")

/-- Model of re.findall with the URL pattern of extract_urls: maximal
non-whitespace runs starting with the http or https scheme.  The character
class of the regex is approximated; no theorem below depends on the matched
set. -/
def findUrls (s : Str) : List Str :=
  (tokensBy (fun c => !(isSpace c)) s).filter (fun t =>
    (strL "http://").isPrefixOf t || (strL "https://").isPrefixOf t)

/-- TextProcessor.extract_urls: empty-ish input yields the empty list;
re.findall raises on truthy non-strings (no enclosing handler). -/
def extract_urls (v : PyVal) : Except Str PyVal :=
  if !(truthy v) then .ok (.list [])
  else
    match v with
    | .str s => .ok (.list ((dedupFirst (findUrls s)).map PyVal.str))
    | _ => .error (strL "TypeError: expected string or bytes-like object")

/-- TextProcessor.get_text_statistics: empty-ish input yields the zero
dictionary; on a string the character, word, sentence and paragraph counts
are computed; len raises on truthy non-strings (no enclosing handler). -/
def get_text_statistics (v : PyVal) : Except Str PyVal :=
  if !(truthy v) then
    .ok (.pdict [(strL "character_count", .int 0), (strL "word_count", .int 0),
                 (strL "sentence_count", .int 0), (strL "paragraph_count", .int 0)])
  else
    match v with
    | .str s =>
      let sentences := tokensBy (fun c => !(c = '.' || c = '!' || c = '?')) s
      .ok (.pdict
        [(strL "character_count", .int s.length),
         (strL "word_count", .int (splitWs s).length),
         (strL "sentence_count",
          .int (sentences.filter (fun t => !(stripStr t).isEmpty)).length),
         (strL "paragraph_count",
          .int ((splitBlank s).filter (fun p => !(stripStr p).isEmpty)).length)])
    | _ => .error (strL "TypeError: object has no len")

/-- The fixed English stop-word set of extract_keywords (as listed in the
source; the duplicate entry for the pronoun is harmless in a set). -/
def stopWords : List Str :=
  [strL "the", strL "a", strL "an", strL "and", strL "or", strL "but",
   strL "in", strL "on", strL "at", strL "to", strL "for", strL "of",
   strL "with", strL "by", strL "is", strL "are", strL "was", strL "were",
   strL "be", strL "been", strL "have", strL "has", strL "had", strL "do",
   strL "does", strL "did", strL "will", strL "would", strL "could",
   strL "should", strL "may", strL "might", strL "must", strL "can",
   strL "this", strL "that", strL "these", strL "those", strL "i",
   strL "you", strL "he", strL "she", strL "it", strL "we", strL "they",
   strL "me", strL "him", strL "her", strL "us", strL "them", strL "my",
   strL "your", strL "his", strL "its", strL "our", strL "their", strL "am"]

/-- Frequency table in first-seen order (collections.Counter preserves
insertion order of first occurrences). -/
def countFreq (ws : List Str) : List (Str × Nat) :=
  ws.foldl (fun acc w =>
    if acc.any (fun p => p.1 == w) then
      acc.map (fun p => if p.1 == w then (p.1, p.2 + 1) else p)
    else acc ++ [(w, 1)]) []

/-- Counter.most_common: sort by descending count; the sort is stable, so
equal counts keep first-seen order. -/
def mostCommon (fs : List (Str × Nat)) : List (Str × Nat) :=
  fs.mergeSort (fun a b => b.2 ≤ a.2)

/-- TextProcessor.extract_keywords: lower-cased word tokens of length at
least min_length outside the stop-word set; of the fifty most common, those
with frequency above one, in descending frequency.  str.lower raises on
truthy non-strings (no enclosing handler). -/
def extract_keywords (v : PyVal) (min_length : Nat) : Except Str PyVal :=
  if !(truthy v) then .ok (.list [])
  else
    match v with
    | .str s =>
      let ws := tokensBy isWordChar (lowerStr s)
      let kws := ws.filter (fun w => decide (min_length ≤ w.length) && !(stopWords.contains w))
      let freq := mostCommon (countFreq kws)
      .ok (.list (((freq.take 50).filter (fun p => 1 < p.2)).map (fun p => .str p.1)))
    | _ => .error (strL "AttributeError: lower")

/-- The cleaned-HTML value computed by process_email_body (empty when the
HTML body is falsy). -/
def cleanedHtmlOf (html_body : PyVal) : PyVal :=
  if truthy html_body then clean_html_content html_body else .str []

/-- The cleaned-text value computed by process_email_body (empty when the
text body is falsy). -/
def cleanedTextOf (text_body : PyVal) : PyVal :=
  if truthy text_body then cleanPlainVal text_body else .str []

/-- The analysis text chosen by process_email_body: the cleaned text when
non-empty, else the cleaned HTML. -/
def analysisTextOf (html_body text_body : PyVal) : PyVal :=
  if truthy (cleanedTextOf text_body) then cleanedTextOf text_body
  else cleanedHtmlOf html_body

/-- TextProcessor.process_email_body: run both cleaners (each catches its
own exceptions), pick the cleaned text if non-empty else the cleaned HTML as
the analysis text, run the extractors and statistics on it (these do not
catch, so their exceptions escape to the caller), and slice a copy to ten
thousand characters as the LLM text. -/
def process_email_body (html_body text_body : PyVal) : Except Str Rec := do
  let cleaned_html := cleanedHtmlOf html_body
  let cleaned_text := cleanedTextOf text_body
  let analysis_text := analysisTextOf html_body text_body
  let emails ← extract_email_addresses analysis_text
  let phones ← extract_phone_numbers analysis_text
  let urls ← extract_urls analysis_text
  let stats ← get_text_statistics analysis_text
  let kws ← extract_keywords analysis_text 3
  let llm ← pySlice analysis_text 10000
  pure [(strL "cleaned_html", cleaned_html),
        (strL "cleaned_text", cleaned_text),
        (strL "email_addresses", emails),
        (strL "phone_numbers", phones),
        (strL "urls", urls),
        (strL "statistics", stats),
        (strL "keywords", kws),
        (strL "llm_optimized_text", llm)]

end TextProcessor

namespace EmailProcessor

/-- str.join over dynamic values: concatenation with the separator; raises
when any element is not a string. -/
def pyJoin (sep : Str) (xs : List PyVal) : Except Str Str := do
  let ss ← xs.mapM (fun v =>
    match v with
    | .str s => pure s
    | _ => Except.error (strL "TypeError: sequence item is not a string"))
  pure (joinSep sep ss)

/-- The try body of EmailProcessor._extract_sender_email: the direct
sender-email attribute unless empty or an internal directory-style address
(leading slash), then the nested sender-object address, then the first
reply-recipient address; a final guard returns the candidate only when it is
non-empty and has no leading slash.  startswith raises on non-string
candidates, Count and Item raise on non-collections. -/
def extract_sender_email_body (mail_item : PyVal) : Except Str PyVal := do
  let se0 := safeGet mail_item (strL "SenderEmailAddress") (.str [])
  let cond1 ← (if !(truthy se0) then pure true else pyStartswith se0 (strL "/"))
  let se1 :=
    if cond1 then
      (let sender := safeGet mail_item (strL "Sender") .pnone
       if truthy sender then safeGet sender (strL "Address") (.str []) else se0)
    else se0
  let cond2 ← (if !(truthy se1) then pure true else pyStartswith se1 (strL "/"))
  let se2 ← (if cond2 then do
      let rr := safeGet mail_item (strL "ReplyRecipients") .pnone
      if truthy rr then do
        let cnt ← pyCount rr
        if 0 < cnt then do
          let it ← pyItem rr 1
          pure (safeGet it (strL "Address") (.str []))
        else pure se1
      else pure se1
    else pure se1)
  let keep ← (if truthy se2 then do
      let sw ← pyStartswith se2 (strL "/")
      pure (!sw)
    else pure false)
  pure (if keep then se2 else .str [])

/-- EmailProcessor._extract_sender_email: the try body with its handler
returning the empty string on any exception. -/
def extract_sender_email (mail_item : PyVal) : PyVal :=
  match extract_sender_email_body mail_item with
  | .ok v => v
  | .error _ => .str []

/-- EmailProcessor._convert_outlook_time: None stays None; a datetime value
(the only values with strftime) keeps its instant, the timezone tag being
replaced without shifting it; anything else is rendered with str and parsed
with datetime.fromisoformat, an unparseable rendering raising into the
handler, which returns None. -/
def convert_outlook_time (v : PyVal) : PyVal :=
  match v with
  | .pnone => .pnone
  | .dt t => .dt t
  | w =>
    match dtParse (pyStrRepr w) with
    | some t => .dt t
    | none => .pnone

/-- Loop body of _extract_recipients over the items of a recipient
collection, in item order: entries without a truthy address are skipped;
when the name is truthy and differs from the address the entry is the
formatted name-with-bracketed-email string, else the raw address value
(stringified only in the formatted branch, as in the source, so a non-string
bare address later makes the join raise). -/
def recipientEntries (items : List PyVal) : List PyVal :=
  items.foldr (fun recipient acc =>
    let email := safeGet recipient (strL "Address") (.str [])
    let name := safeGet recipient (strL "Name") (.str [])
    if truthy email then
      (if truthy name && !(pyEqVal name email) then
        PyVal.str (pyStrRepr name ++ strL " <" ++ pyStrRepr email ++ strL ">") :: acc
       else email :: acc)
    else acc) []

/-- EmailProcessor._extract_recipients: read the typed recipient collection,
collect the entries, join with semicolon-space; any exception (Count on a
truthy non-collection, join over a non-string address) is caught and yields
the empty string. -/
def extract_recipients (mail_item : PyVal) (recipient_type : Str) : Str :=
  let rc := safeGet mail_item (recipient_type ++ strL "Recipients") .pnone
  let body : Except Str Str :=
    if truthy rc then
      match rc with
      | .coll items => pyJoin (strL "; ") (recipientEntries items)
      | _ => .error (strL "AttributeError: Count")
    else .ok []
  match body with
  | .ok s => s
  | .error _ => []

/-- EmailProcessor._process_attachments.  The default dictionary is
returned when there are no attachments or when Count raises on a truthy
non-collection; the flag and count are assigned before the name and size
loop, so an exception raised by the semicolon join over a non-string file
name leaves the partially updated dictionary (flag and count set, names and
sizes still empty), exactly as the mutated-then-caught Python dict. -/
def process_attachments (mail_item : PyVal) : Rec :=
  let dflt : Rec := [(strL "has_attachments", .bool false),
                     (strL "attachment_count", .int 0),
                     (strL "attachment_names", .str []),
                     (strL "attachment_sizes", .str [])]
  let atts := safeGet mail_item (strL "Attachments") .pnone
  if truthy atts then
    match atts with
    | .coll items =>
      let names := items.enum.map (fun p =>
        safeGet p.2 (strL "FileName") (.str (strL "Attachment_" ++ natRepr (p.1 + 1))))
      let sizes := items.map (fun att =>
        pyStrRepr (safeGet att (strL "Size") (.int 0)))
      (match pyJoin (strL "; ") names with
       | .ok ns =>
         [(strL "has_attachments", .bool true),
          (strL "attachment_count", .int items.length),
          (strL "attachment_names", .str ns),
          (strL "attachment_sizes", .str (joinSep (strL "; ") sizes))]
       | .error _ =>
         [(strL "has_attachments", .bool true),
          (strL "attachment_count", .int items.length),
          (strL "attachment_names", .str []),
          (strL "attachment_sizes", .str [])])
    | _ => dflt
  else dflt

/-- EmailProcessor._extract_categories: the category attribute value when
truthy, else the empty string; the try body cannot raise. -/
def extract_categories (mail_item : PyVal) : PyVal :=
  let c := safeGet mail_item (strL "Categories") (.str [])
  if truthy c then c else .str []

/-- EmailProcessor._check_reply_status: true on a non-empty reply-recipients
collection, else true when the upper-cased subject starts with the reply
marker; any exception (Count on a truthy non-collection, upper on a
non-string subject) is caught and yields false. -/
def check_reply_status (mail_item : PyVal) : Bool :=
  let body : Except Str Bool := do
    let rr := safeGet mail_item (strL "ReplyRecipients") .pnone
    let viaRR ← (if truthy rr then do
        let cnt ← pyCount rr
        pure (decide (0 < cnt))
      else pure false)
    if viaRR then pure true
    else do
      let subject := safeGet mail_item (strL "Subject") (.str [])
      let up ← pyUpper subject
      pure ((strL "RE:").isPrefixOf up)
  match body with
  | .ok b => b
  | .error _ => false

/-- EmailProcessor._check_forward_status: true when the upper-cased subject
starts with one of the forward markers; any exception is caught and yields
false. -/
def check_forward_status (mail_item : PyVal) : Bool :=
  let body : Except Str Bool := do
    let subject := safeGet mail_item (strL "Subject") (.str [])
    let up ← pyUpper subject
    pure ((strL "FW:").isPrefixOf up || (strL "FWD:").isPrefixOf up)
  match body with
  | .ok b => b
  | .error _ => false

/-- EmailProcessor._get_priority_text: dictionary get with default Normal.
Python dict lookup hashes the key, so the booleans alias the integers zero
and one and integral floats alias their integers; unhashable keys (lists,
dicts) raise out of the method into the record-level handler of the caller.
-/
def get_priority_text (importance : PyVal) : Except Str PyVal :=
  match importance with
  | .int 0 => .ok (.str (strL "Low"))
  | .int 1 => .ok (.str (strL "Normal"))
  | .int 2 => .ok (.str (strL "High"))
  | .bool false => .ok (.str (strL "Low"))
  | .bool true => .ok (.str (strL "Normal"))
  | .float q =>
    .ok (.str (if q = 0 then strL "Low"
               else if q = 1 then strL "Normal"
               else if q = 2 then strL "High"
               else strL "Normal"))
  | .list _ => .error (strL "TypeError: unhashable type")
  | .pdict _ => .error (strL "TypeError: unhashable type")
  | _ => .ok (.str (strL "Normal"))

/-- EmailProcessor._create_error_record: the literal error dictionary. -/
def create_error_record (folder_name : Str) (error_message : Str) : Rec :=
  [(strL "folder_name", .str folder_name),
   (strL "subject", .str (strL "ERROR: " ++ error_message)),
   (strL "sender_email", .str []),
   (strL "sender_name", .str []),
   (strL "received_time", .pnone),
   (strL "sent_time", .pnone),
   (strL "body_text", .str []),
   (strL "body_html", .str []),
   (strL "importance", .int 1),
   (strL "size", .int 0),
   (strL "unread", .bool false),
   (strL "has_attachments", .bool false),
   (strL "attachment_count", .int 0),
   (strL "categories", .str []),
   (strL "message_class", .str (strL "ERROR")),
   (strL "conversation_topic", .str []),
   (strL "to_recipients", .str []),
   (strL "cc_recipients", .str []),
   (strL "bcc_recipients", .str []),
   (strL "error", .bool true),
   (strL "error_message", .str error_message)]

/-- The try body of EmailProcessor.process_email_item: build the record
field by field, in assignment order.  The safe accessors and the
fault-isolated helpers cannot raise; the body-processing call and the
priority lookup can, and their exceptions reach the enclosing record-level
handler.  The dict update with the processed-body result appends its eight
fresh keys in their insertion order. -/
def process_email_item_body (mail_item : PyVal) (folder_name : Str) : Except Str Rec := do
  let subject := safeGet mail_item (strL "Subject") (.str [])
  let sender_email := extract_sender_email mail_item
  let sender_name := safeGet mail_item (strL "SenderName") (.str [])
  let received_time := convert_outlook_time (safeGet mail_item (strL "ReceivedTime") .pnone)
  let sent_time := convert_outlook_time (safeGet mail_item (strL "SentOn") .pnone)
  let body_html := safeGet mail_item (strL "HTMLBody") (.str [])
  let body_text := safeGet mail_item (strL "Body") (.str [])
  let processed_body ← TextProcessor.process_email_body body_html body_text
  let importance := safeGet mail_item (strL "Importance") (.int 1)
  let attachment_info := process_attachments mail_item
  let priority ← get_priority_text importance
  pure
    ([(strL "folder_name", .str folder_name),
      (strL "subject", subject),
      (strL "sender_email", sender_email),
      (strL "sender_name", sender_name),
      (strL "received_time", received_time),
      (strL "sent_time", sent_time),
      (strL "body_html", body_html),
      (strL "body_text", body_text)]
     ++ processed_body
     ++ [(strL "importance", importance),
         (strL "size", safeGet mail_item (strL "Size") (.int 0)),
         (strL "unread", safeGet mail_item (strL "UnRead") (.bool false)),
         (strL "message_class", safeGet mail_item (strL "MessageClass") (.str [])),
         (strL "conversation_topic", safeGet mail_item (strL "ConversationTopic") (.str [])),
         (strL "to_recipients", .str (extract_recipients mail_item (strL "To"))),
         (strL "cc_recipients", .str (extract_recipients mail_item (strL "CC"))),
         (strL "bcc_recipients", .str (extract_recipients mail_item (strL "BCC"))),
         (strL "has_attachments", (lookupR attachment_info (strL "has_attachments")).getD .pnone),
         (strL "attachment_count", (lookupR attachment_info (strL "attachment_count")).getD .pnone),
         (strL "attachment_names", (lookupR attachment_info (strL "attachment_names")).getD .pnone),
         (strL "attachment_sizes", (lookupR attachment_info (strL "attachment_sizes")).getD .pnone),
         (strL "categories", extract_categories mail_item),
         (strL "email_thread_id", safeGet mail_item (strL "ConversationID") (.str [])),
         (strL "message_id", safeGet mail_item (strL "EntryID") (.str [])),
         (strL "is_replied", .bool (check_reply_status mail_item)),
         (strL "is_forwarded", .bool (check_forward_status mail_item)),
         (strL "priority", priority),
         (strL "day_of_week", .str (match received_time with | .dt t => dayNameOf t | _ => [])),
         (strL "hour_of_day", match received_time with | .dt t => .int (hourOf t) | _ => .int 0)])

/-- EmailProcessor.process_email_item: the try body with its record-level
handler converting any exception into the error record for the folder. -/
def process_email_item (mail_item : PyVal) (folder_name : Str) : Rec :=
  match process_email_item_body mail_item folder_name with
  | .ok r => r
  | .error e => create_error_record folder_name e

end EmailProcessor

namespace DataFrameManager

/-- The fixed column schema of DataFrameManager._get_column_definitions, in
declaration order, with the pandas dtype strings. -/
def column_definitions : List (Str × Str) :=
  [(strL "folder_name", strL "str"),
   (strL "subject", strL "str"),
   (strL "sender_email", strL "str"),
   (strL "sender_name", strL "str"),
   (strL "received_time", strL "datetime64[ns]"),
   (strL "sent_time", strL "datetime64[ns]"),
   (strL "body_text", strL "str"),
   (strL "body_html", strL "str"),
   (strL "importance", strL "int64"),
   (strL "size", strL "int64"),
   (strL "unread", strL "bool"),
   (strL "has_attachments", strL "bool"),
   (strL "attachment_count", strL "int64"),
   (strL "categories", strL "str"),
   (strL "message_class", strL "str"),
   (strL "conversation_topic", strL "str"),
   (strL "to_recipients", strL "str"),
   (strL "cc_recipients", strL "str"),
   (strL "bcc_recipients", strL "str"),
   (strL "body_word_count", strL "int64"),
   (strL "subject_length", strL "int64"),
   (strL "is_reply", strL "bool"),
   (strL "is_forward", strL "bool"),
   (strL "domain", strL "str"),
   (strL "hour_received", strL "int64"),
   (strL "day_of_week", strL "str"),
   (strL "sentiment", strL "str"),
   (strL "priority_score", strL "float64"),
   (strL "topic_category", strL "str"),
   (strL "requires_action", strL "bool"),
   (strL "key_entities", strL "str"),
   (strL "summary", strL "str")]

/-- The schema column names, in schema order. -/
def schemaCols : List Str := column_definitions.map (fun p => p.1)

/-- A pandas DataFrame: a row count plus named columns (each a cell list of
that row count), in column order. -/
structure DF where
  nr : Nat
  cols : List (Str × List PyVal)

/-- The column names of a frame, in column order. -/
def colNames (df : DF) : List Str := df.cols.map (fun p => p.1)

/-- Column read df[c]. -/
def getCol (df : DF) (c : Str) : Option (List PyVal) :=
  (df.cols.find? (fun p => p.1 == c)).map (fun p => p.2)

/-- One cell of a frame: column name and row index. -/
def getCell (df : DF) (c : Str) (i : Nat) : Option PyVal :=
  (getCol df c).bind (fun vs => vs.get? i)

/-- Column assignment on the column list: replace the named column in place
when the name exists (column names are unique by construction: the frame is
built by dedupKeys and extended only with names not yet present), else
append as a new last column. -/
def setColList : List (Str × List PyVal) → Str → List PyVal → List (Str × List PyVal)
  | [], c, vs => [(c, vs)]
  | p :: rest, c, vs =>
    if p.1 == c then (c, vs) :: rest else p :: setColList rest c vs

/-- Column assignment df[c] = vs. -/
def setCol (df : DF) (c : Str) (vs : List PyVal) : DF :=
  ⟨df.nr, setColList df.cols c vs⟩

/-- Cell-wise transformation of a column, applied only when the column
exists (each source site guards with a column-membership test, or follows
the backfill which guarantees presence). -/
def mapCol (df : DF) (c : Str) (f : PyVal → PyVal) : DF :=
  match getCol df c with
  | some vs => setCol df c (vs.map f)
  | none => df

/-- First-seen deduplication of column names. -/
def dedupKeys (ks : List Str) : List Str :=
  ks.foldl (fun acc k => if acc.contains k then acc else acc ++ [k]) []

/-- pd.DataFrame over a list of dicts: the columns are the union of the
dict keys in first-seen order; a record lacking a key contributes NaN to
that column. -/
def fromRecords (records : List Rec) : DF :=
  let names := dedupKeys (records.map (fun r => r.map (fun p => p.1))).flatten
  ⟨records.length,
   names.map (fun c => (c, records.map (fun r => (lookupR r c).getD .pnone)))⟩

/-- The type-appropriate default of the backfill branch of create_dataframe
(the dtype dispatch is the if/elif chain of the source, including its
substring tests; a dtype matching no branch would leave the column
unfilled). -/
def defaultFor (dtype : Str) : Option PyVal :=
  if dtype == strL "str" then some (.str [])
  else if dtype == strL "bool" then some (.bool false)
  else if containsSub (strL "int") dtype then some (.int 0)
  else if containsSub (strL "float") dtype then some (.float 0)
  else if containsSub (strL "datetime") dtype then some .pnone
  else none

/-- One iteration of the backfill loop: insert the schema column with its
default on every row when absent. -/
def backfillStep (acc : DF) (cd : Str × Str) : DF :=
  if (colNames acc).contains cd.1 then acc
  else
    match defaultFor cd.2 with
    | some v => setCol acc cd.1 (List.replicate acc.nr v)
    | none => acc

/-- The backfill loop of create_dataframe: every schema column absent from
the frame is inserted with its type-appropriate default in every row. -/
def backfill (df : DF) : DF :=
  column_definitions.foldl backfillStep df

/-- pd.to_datetime with errors coerce on one cell: datetimes pass through,
strings parse or coerce to NaT, missing values stay NaT, integers are epoch
counts (in the model units of the timestamp encoding), everything else
coerces to NaT. -/
def coerceDT : PyVal → PyVal
  | .dt t => .dt t
  | .pnone => .pnone
  | .str s =>
    (match dtParse s with
     | some t => .dt t
     | none => .pnone)
  | .int n => .dt n
  | _ => .pnone

/-- astype(bool) on one cell of an object column: Python truthiness, with
the numpy quirk that a missing value (NaN, a float) is truthy. -/
def coerceBool : PyVal → PyVal
  | .pnone => .bool true
  | w => .bool (truthy w)

/-- pd.to_numeric with errors coerce, then fillna(0), then astype(int64) on
one cell: numbers pass through with truncation toward zero, booleans become
zero or one, parseable strings take their numeric value, everything else
coerces to NaN and is then filled with zero. -/
def coerceInt : PyVal → PyVal
  | .int n => .int n
  | .float q => .int (ratTrunc q)
  | .bool b => .int (if b then 1 else 0)
  | .str s =>
    (match parseNum s with
     | some q => .int (ratTrunc q)
     | none => .int 0)
  | _ => .int 0

/-- pd.to_numeric with errors coerce, then fillna(0.0) on one cell (float
columns). -/
def coerceFloat : PyVal → PyVal
  | .int n => .float (n : Rat)
  | .float q => .float q
  | .bool b => .float (if b then 1 else 0)
  | .str s =>
    (match parseNum s with
     | some q => .float q
     | none => .float 0)
  | _ => .float 0

/-- astype(str) with fillna on one cell: the Python string rendering of the
value (NaN renders as the nan string, so the fillna after it finds nothing
left to fill). -/
def coerceStr (v : PyVal) : PyVal := .str (pyStrRepr v)

/-- The dtype dispatch of _apply_data_types (string types are the final
else branch). -/
def coerceFor (dtype : Str) : PyVal → PyVal :=
  if dtype == strL "datetime64[ns]" then coerceDT
  else if dtype == strL "bool" then coerceBool
  else if containsSub (strL "int") dtype then coerceInt
  else if containsSub (strL "float") dtype then coerceFloat
  else coerceStr

/-- One iteration of the conversion loop of _apply_data_types: cell-wise
conversion of one schema column when present in the frame. -/
def coerceStep (acc : DF) (cd : Str × Str) : DF := mapCol acc cd.1 (coerceFor cd.2)

/-- DataFrameManager._apply_data_types: cell-wise conversion of every
schema column present in the frame, in schema order.  Conversion failures
coerce to the dtype default instead of raising (errors equal to coerce,
then fillna). -/
def apply_data_types (df : DF) : DF :=
  column_definitions.foldl coerceStep df

/-- The pandas string-accessor strip on one cell: strings strip,
non-strings become NaN. -/
def cellStrip : PyVal → PyVal
  | .str s => .str (stripStr s)
  | _ => .pnone

/-- Series.replace of the empty string by NaN, on one cell. -/
def cellBlankToNan : PyVal → PyVal
  | .str [] => .pnone
  | v => v

/-- The pandas string-accessor lower on one cell: strings lower-case,
non-strings become NaN. -/
def cellLower : PyVal → PyVal
  | .str s => .str (lowerStr s)
  | _ => .pnone

/-- DataFrameManager._clean_text: missing or empty text yields the empty
string; a string has its whitespace runs joined by single spaces and its
carriage returns normalized; the except branch renders any other value with
str. -/
def clean_text_cell : PyVal → PyVal
  | .pnone => .str []
  | .str s =>
    if s.isEmpty then .str []
    else .str (replaceCR (replaceCRLF (joinSep [' '] (splitWs s))))
  | v => .str (pyStrRepr v)

/-- One iteration of the text-column loop of _clean_data: strip the column,
then replace its empty strings by NaN. -/
def cleanColStep (acc : DF) (c : Str) : DF :=
  mapCol (mapCol acc c cellStrip) c cellBlankToNan

/-- The text-column loop of _clean_data over its four column names. -/
def cleanTextCols (df : DF) : DF :=
  [strL "subject", strL "body_text", strL "sender_name",
   strL "sender_email"].foldl cleanColStep df

/-- The sender-email lower-casing of _clean_data. -/
def lowerSender (df : DF) : DF := mapCol df (strL "sender_email") cellLower

/-- The derived cleaned-body column of _clean_data. -/
def addBodyTextClean (df : DF) : DF :=
  match getCol df (strL "body_text") with
  | some vs => setCol df (strL "body_text_clean") (vs.map clean_text_cell)
  | none => df

/-- DataFrameManager._clean_data: strip the four text columns and replace
their empty strings by NaN, lower-case the sender email, and derive the
cleaned body-text column. -/
def clean_data (df : DF) : DF :=
  addBodyTextClean (lowerSender (cleanTextCols df))

/-- One cell of the age column: whole days between now and the received
timestamp (Timedelta days floor toward minus infinity); a missing timestamp
yields a missing age. -/
def ageCell (now : Int) : PyVal → PyVal
  | .dt t => .int ((now - t).fdiv 86400)
  | _ => .pnone

/-- DataFrameManager._categorize_time: the hour bucket; Unknown when the
hour is missing (pd.isna). -/
def categorize_time : Option Int → Str
  | none => strL "Unknown"
  | some h =>
    if 6 ≤ h ∧ h < 12 then strL "Morning"
    else if 12 ≤ h ∧ h < 17 then strL "Afternoon"
    else if 17 ≤ h ∧ h < 21 then strL "Evening"
    else strL "Night"

/-- _categorize_time applied to one cell of the hour column.  After type
coercion the cells of that int64 column are integers; a NaN cell takes the
missing branch.  (No other shape can reach the column after coercion.) -/
def categorizeCell : PyVal → PyVal
  | .int h => .str (categorize_time (some h))
  | _ => .str (categorize_time none)

/-- pd.cut with the byte thresholds and default right-closed intervals, on
one cell of the coerced size column: values at or below zero fall outside
the lowest interval and receive no category (NaN). -/
def sizeCell : PyVal → PyVal
  | .int n =>
    if n ≤ 0 then .pnone
    else if n ≤ 1000 then .str (strL "Small")
    else if n ≤ 10000 then .str (strL "Medium")
    else if n ≤ 100000 then .str (strL "Large")
    else .str (strL "Very Large")
  | _ => .pnone

/-- The recipient-count lambda on one cell: an empty or missing value
counts zero, else one more than the number of separators (str.split on a
single-character separator keeps empty segments). -/
def countCell : PyVal → PyVal
  | .str s => if s.isEmpty then .int 0 else .int ((s.count ';' : Nat) + 1)
  | _ => .int 0

/-- One iteration of the recipient-count loop of _add_computed_fields: the
count column derived from the recipients column of the given prefix. -/
def countStep (acc : DF) (t : Str) : DF :=
  match getCol acc (t ++ strL "_recipients") with
  | some vs => setCol acc (t ++ strL "_count") (vs.map countCell)
  | none => acc

/-- The age-in-days derivation of _add_computed_fields. -/
def addAge (now : Int) (df : DF) : DF :=
  match getCol df (strL "received_time") with
  | some vs => setCol df (strL "age_days") (vs.map (ageCell now))
  | none => df

/-- The time-category derivation of _add_computed_fields. -/
def addTimeCategory (df : DF) : DF :=
  match getCol df (strL "hour_received") with
  | some vs => setCol df (strL "time_category") (vs.map categorizeCell)
  | none => df

/-- The size-category derivation of _add_computed_fields. -/
def addSizeCategory (df : DF) : DF :=
  match getCol df (strL "size") with
  | some vs => setCol df (strL "size_category") (vs.map sizeCell)
  | none => df

/-- The recipient-count loop of _add_computed_fields. -/
def addCounts (df : DF) : DF :=
  [strL "to", strL "cc", strL "bcc"].foldl countStep df

/-- DataFrameManager._add_computed_fields: age in days, time category, size
category and the three recipient counts, each derived cell-wise from its
source column (always present after backfill) and assigned as a new
column.  The wall-clock read of pd.Timestamp.now is the now parameter. -/
def add_computed_fields (now : Int) (df : DF) : DF :=
  addCounts (addSizeCategory (addTimeCategory (addAge now df)))

/-- DataFrameManager.create_dataframe: empty input yields an empty frame;
otherwise the frame is built from the records, the missing schema columns
are backfilled with defaults, the dtype conversions are applied, the text
columns are cleaned and the computed fields are added.  All embedded steps
are pure, so the outer exception handler of the source (returning an empty
frame) has nothing to catch. -/
def create_dataframe (now : Int) (email_data : List Rec) : DF :=
  if email_data.isEmpty then ⟨0, []⟩
  else
    add_computed_fields now
      (clean_data (apply_data_types (backfill (fromRecords email_data))))

/-- Refinement reference for the derived domain column, modelled from the
spec words (not from the source): the substring of the sender email after
the at sign, empty when no at sign occurs. -/
def specDomainOfSenderEmail (s : Str) : Str :=
  (s.dropWhile (fun c => c != '@')).drop 1

end DataFrameManager

namespace EmailProcessor

/-- The keys of every record returned by the success path of
process_email_item, in insertion order (the middle block is the
processed-body dict merged in by update). -/
def mapperSuccessKeys : List Str :=
  [strL "folder_name", strL "subject", strL "sender_email", strL "sender_name",
   strL "received_time", strL "sent_time", strL "body_html", strL "body_text",
   strL "cleaned_html", strL "cleaned_text", strL "email_addresses",
   strL "phone_numbers", strL "urls", strL "statistics", strL "keywords",
   strL "llm_optimized_text",
   strL "importance", strL "size", strL "unread", strL "message_class",
   strL "conversation_topic", strL "to_recipients", strL "cc_recipients",
   strL "bcc_recipients", strL "has_attachments", strL "attachment_count",
   strL "attachment_names", strL "attachment_sizes", strL "categories",
   strL "email_thread_id", strL "message_id", strL "is_replied",
   strL "is_forwarded", strL "priority", strL "day_of_week", strL "hour_of_day"]

/-- The keys of the error record of _create_error_record, in insertion
order. -/
def errorRecordKeys : List Str :=
  [strL "folder_name", strL "subject", strL "sender_email", strL "sender_name",
   strL "received_time", strL "sent_time", strL "body_text", strL "body_html",
   strL "importance", strL "size", strL "unread", strL "has_attachments",
   strL "attachment_count", strL "categories", strL "message_class",
   strL "conversation_topic", strL "to_recipients", strL "cc_recipients",
   strL "bcc_recipients", strL "error", strL "error_message"]

end EmailProcessor

/-- Whitespace discipline of collapsed strings: every whitespace character
is a plain space, and no two adjacent characters are both whitespace. -/
def wsNormal (s : Str) : Prop :=
  (∀ c ∈ s, isSpace c = true → c = ' ') ∧
  List.Chain' (fun a b => ¬(isSpace a = true ∧ isSpace b = true)) s

/-- The first character, if any, is not whitespace. -/
def headNotSpace : Str → Prop
  | [] => True
  | c :: _ => isSpace c = false

end O2A

set_option maxRecDepth 100000

namespace O2A

open TextProcessor EmailProcessor DataFrameManager

/-! Helper lemmas about the tag scanner. -/

/-- A string without a closing angle bracket has no tag start. -/
theorem tagAt_eq_false (s : Str) (h : '>' ∉ s) : tagAt s = false := by
  cases s with
  | nil => rfl
  | cons d r =>
    have hr : ('>' : Char) ∉ r := fun hh => h (List.mem_cons_of_mem d hh)
    simp [tagAt, hr]

/-- A string without a closing angle bracket contains no tag. -/
theorem hasTag_eq_false_of_not_mem : ∀ s : Str, '>' ∉ s → hasTag s = false
  | [], _ => rfl
  | c :: rest, h => by
    have hr : '>' ∉ rest := fun hh => h (List.mem_cons_of_mem c hh)
    simp [hasTag, tagAt_eq_false rest hr, hasTag_eq_false_of_not_mem rest hr]

/-- The tag-stripping scanner never leaves a tag: outside a candidate, and
inside a candidate whose inner characters hold no closing bracket, the
output is tag-free. -/
theorem hasTag_stripTagsAux : ∀ s : Str,
    hasTag (stripTagsAux s none) = false ∧
    (∀ ins : Str, '>' ∉ ins → hasTag (stripTagsAux s (some ins)) = false)
  | [] => by
    refine ⟨rfl, fun ins hins => ?_⟩
    have hrev : '>' ∉ ins.reverse := by simpa using hins
    have h1 : tagAt ins.reverse = false := tagAt_eq_false _ hrev
    have h2 : hasTag ins.reverse = false := hasTag_eq_false_of_not_mem _ hrev
    simp [stripTagsAux, hasTag, h1, h2]
  | c :: rest => by
    obtain ⟨ih1, ih2⟩ := hasTag_stripTagsAux rest
    refine ⟨?_, ?_⟩
    · by_cases hc : c = '<'
      · simpa [stripTagsAux, hc] using ih2 [] (by simp)
      · simp [stripTagsAux, hc, hasTag, ih1]
    · intro ins hins
      by_cases hc : c = '>'
      · by_cases hi : ins.isEmpty
        · simp [stripTagsAux, hc, hi, hasTag, tagAt, ih1]
        · simp [stripTagsAux, hc, hi, ih1]
      · have hins2 : ('>' : Char) ∉ c :: ins := by
          intro hh
          rcases List.mem_cons.mp hh with h1 | h1
          · exact hc h1.symm
          · exact hins h1
        simp [stripTagsAux, hc, ih2 (c :: ins) hins2]

/-- C10: the size-category bucketing of the assembler (the embedded pd.cut of
_add_computed_fields) uses left-open, right-closed intervals over the
thresholds 1000, 10000 and 100000: a size of exactly 1000 is Small, exactly
10000 is Medium, exactly 100000 is Large, and a size at or below zero
receives no bucket (a missing category value) rather than Small. -/
theorem claim_C10_size_buckets :
    sizeCell (PyVal.int 1000) = PyVal.str (strL "Small") ∧
    sizeCell (PyVal.int 10000) = PyVal.str (strL "Medium") ∧
    sizeCell (PyVal.int 100000) = PyVal.str (strL "Large") ∧
    (∀ n : Int, n ≤ 0 → sizeCell (PyVal.int n) = PyVal.pnone) := by
  refine ⟨rfl, rfl, rfl, fun n hn => ?_⟩
  simp [sizeCell, if_pos hn]

/-- Witness for C10: the boundary sizes evaluated, with the at-or-below-zero
case discharged at size zero. -/
theorem claim_C10_witness :
    sizeCell (PyVal.int 1000) = PyVal.str (strL "Small") ∧
    sizeCell (PyVal.int 0) = PyVal.pnone :=
  ⟨claim_C10_size_buckets.1, claim_C10_size_buckets.2.2.2 0 (by decide)⟩

/-- C4 (amended): the type-coercion step is total and never raises; a string
that fails to parse in a numeric column becomes zero, in a float column
becomes zero, in a timestamp column becomes the null timestamp, and string
columns always convert; but a boolean column converts by Python truthiness
(astype(bool)), so a non-boolean value such as the non-empty string abc
becomes true, not the documented default false. -/
theorem claim_C4_amended :
    (∀ s : Str, parseNum s = none → coerceInt (PyVal.str s) = PyVal.int 0) ∧
    (∀ s : Str, parseNum s = none → coerceFloat (PyVal.str s) = PyVal.float 0) ∧
    (∀ s : Str, dtParse s = none → coerceDT (PyVal.str s) = PyVal.pnone) ∧
    (∀ v : PyVal, ∃ b : Bool, coerceBool v = PyVal.bool b) ∧
    coerceBool (PyVal.str (strL "abc")) = PyVal.bool true ∧
    (∀ v : PyVal, ∃ s : Str, coerceStr v = PyVal.str s) := by
  refine ⟨?_, ?_, ?_, ?_, rfl, fun v => ⟨_, rfl⟩⟩
  · intro s hs; simp [coerceInt, hs]
  · intro s hs; simp [coerceFloat, hs]
  · intro s hs; simp [coerceDT, hs]
  · intro v; cases v <;> exact ⟨_, rfl⟩

/-- C4 counterexample: the boolean coercion maps the non-boolean string abc
to true, not to the documented default false. -/
theorem claim_C4_counterexample :
    coerceBool (PyVal.str (strL "abc")) ≠ PyVal.bool false := by
  intro h
  rw [show coerceBool (PyVal.str (strL "abc")) = PyVal.bool true from rfl] at h
  exact Bool.noConfusion (PyVal.bool.inj h)

/-- Witness for C4 at concrete malformed inputs: a non-numeric word in an
int column yields zero and a non-date string in a timestamp column yields
the null timestamp. -/
theorem claim_C4_witness :
    parseNum (strL "twelve") = none ∧
    coerceInt (PyVal.str (strL "twelve")) = PyVal.int 0 ∧
    dtParse (strL "not-a-date") = none ∧
    coerceDT (PyVal.str (strL "not-a-date")) = PyVal.pnone :=
  ⟨by decide, claim_C4_amended.1 (strL "twelve") (by decide), by decide,
   claim_C4_amended.2.2.1 (strL "not-a-date") (by decide)⟩

/-- C3: the mapper never raises to its caller: for every raw item and folder
name, either the try body succeeds and its record is returned, or it raises
and the result is the error record whose subject carries the exception
message prefixed with ERROR and whose message class is ERROR; in both cases
the result is a well-typed record. -/
theorem claim_C3_mapper_total (mail_item : PyVal) (folder_name : Str) :
    (∃ r : Rec, process_email_item_body mail_item folder_name = Except.ok r ∧
        process_email_item mail_item folder_name = r) ∨
    (∃ e : Str, process_email_item_body mail_item folder_name = Except.error e ∧
        process_email_item mail_item folder_name = create_error_record folder_name e ∧
        lookupR (create_error_record folder_name e) (strL "subject")
          = some (PyVal.str (strL "ERROR: " ++ e)) ∧
        lookupR (create_error_record folder_name e) (strL "message_class")
          = some (PyVal.str (strL "ERROR"))) := by
  cases h : process_email_item_body mail_item folder_name with
  | ok r => exact Or.inl ⟨r, rfl, by simp [process_email_item, h]⟩
  | error e => exact Or.inr ⟨e, rfl, by simp [process_email_item, h], rfl, rfl⟩

/-- C8 (amended): the fallback path of the HTML cleaner strips tags first
and decodes entities afterwards; the tag-stripping pass itself leaves no
angle-bracket-delimited tag, but because the entity decode runs after it,
entity-encoded tags can reappear in the final output (see the
counterexample), so only the intermediate tag-stripped form is tag-free. -/
theorem claim_C8_amended (s : Str) :
    cleanHtmlText s
      = (if s.isEmpty then [] else stripStr (collapse (unescape (stripTags s)))) ∧
    hasTag (stripTags s) = false :=
  ⟨rfl, (hasTag_stripTagsAux s).1⟩

/-- C8 counterexample: on the entity-encoded input the fallback cleaner
outputs a literal bold tag, so a tag does remain in the output. -/
theorem claim_C8_counterexample :
    cleanHtmlText (strL "&lt;b&gt;") = strL "<b>" ∧
    hasTag (cleanHtmlText (strL "&lt;b&gt;")) = true := by decide

/-- C9 counterexample: cleaning is not idempotent: removing the disallowed
ampersand of the input leaves two adjacent spaces, which only the second
pass collapses. -/
theorem claim_C9_counterexample :
    clean_plain_text (clean_plain_text (strL "a & b")) ≠ clean_plain_text (strL "a & b") := by
  decide

/-! Frame-operation lemmas. -/

theorem nr_setCol (df : DF) (c : Str) (vs : List PyVal) : (setCol df c vs).nr = df.nr := rfl

theorem getColList_setColList_self :
    ∀ (cols : List (Str × List PyVal)) (c : Str) (vs : List PyVal),
    ((setColList cols c vs).find? (fun p => p.1 == c)).map (fun p => p.2) = some vs
  | [], c, vs => by simp [setColList]
  | p :: rest, c, vs => by
    by_cases h : p.1 = c
    · simp [setColList, h]
    · have hb : (p.1 == c) = false := by simpa using h
      simp [setColList, hb, getColList_setColList_self rest c vs]

theorem getCol_setCol_self (df : DF) (c : Str) (vs : List PyVal) :
    getCol (setCol df c vs) c = some vs :=
  getColList_setColList_self df.cols c vs

theorem getColList_setColList_ne :
    ∀ (cols : List (Str × List PyVal)) (c c' : Str) (vs : List PyVal), c' ≠ c →
    ((setColList cols c vs).find? (fun p => p.1 == c')).map (fun p => p.2)
      = (cols.find? (fun p => p.1 == c')).map (fun p => p.2)
  | [], c, c', vs, h => by
    have hb : (c == c') = false := by simpa using (Ne.symm h)
    simp [setColList, hb]
  | p :: rest, c, c', vs, h => by
    by_cases hp : p.1 = c
    · have h1 : setColList (p :: rest) c vs = (c, vs) :: rest := by
        simp [setColList, hp]
      have hb1 : (c == c') = false := by simpa using (Ne.symm h)
      have hb2 : (p.1 == c') = false := by rw [hp]; exact hb1
      rw [h1]
      simp [List.find?, hb1, hb2]
    · have hb : (p.1 == c) = false := by simpa using hp
      have h1 : setColList (p :: rest) c vs = p :: setColList rest c vs := by
        simp [setColList, hb]
      rw [h1]
      by_cases hpc : (p.1 == c') = true
      · simp [List.find?, hpc]
      · have hb2 : (p.1 == c') = false := by simpa using hpc
        simp [List.find?, hb2, getColList_setColList_ne rest c c' vs h]

theorem getCol_setCol_ne (df : DF) (c c' : Str) (vs : List PyVal) (h : c' ≠ c) :
    getCol (setCol df c vs) c' = getCol df c' :=
  getColList_setColList_ne df.cols c c' vs h

theorem mem_namesList_setColList :
    ∀ (cols : List (Str × List PyVal)) (c : Str) (vs : List PyVal) (a : Str),
    a ∈ (setColList cols c vs).map Prod.fst ↔ a = c ∨ a ∈ cols.map Prod.fst
  | [], c, vs, a => by simp [setColList]
  | p :: rest, c, vs, a => by
    by_cases h : p.1 = c
    · subst h
      simp [setColList]
    · have hb : (p.1 == c) = false := by simpa using h
      simp [setColList, hb, mem_namesList_setColList rest c vs a]
      tauto

theorem mem_colNames_setCol (df : DF) (c : Str) (vs : List PyVal) (a : Str) :
    a ∈ colNames (setCol df c vs) ↔ a = c ∨ a ∈ colNames df :=
  mem_namesList_setColList df.cols c vs a

theorem nr_mapCol (df : DF) (c : Str) (f : PyVal → PyVal) : (mapCol df c f).nr = df.nr := by
  unfold mapCol
  cases getCol df c <;> rfl

theorem getCol_mapCol_self (df : DF) (c : Str) (f : PyVal → PyVal) :
    getCol (mapCol df c f) c = (getCol df c).map (List.map f) := by
  unfold mapCol
  cases h : getCol df c with
  | none => simp [h]
  | some vs => simp [getCol_setCol_self]

theorem getCol_mapCol_ne (df : DF) (c c' : Str) (f : PyVal → PyVal) (h : c' ≠ c) :
    getCol (mapCol df c f) c' = getCol df c' := by
  unfold mapCol
  cases getCol df c with
  | none => rfl
  | some vs => exact getCol_setCol_ne _ _ _ _ h

theorem mem_colNames_mapCol_of_mem (df : DF) (c : Str) (f : PyVal → PyVal) (a : Str)
    (h : a ∈ colNames df) : a ∈ colNames (mapCol df c f) := by
  unfold mapCol
  cases getCol df c with
  | none => exact h
  | some vs => exact (mem_colNames_setCol _ _ _ _).mpr (Or.inr h)

theorem mem_namesList_iff_find?_isSome :
    ∀ (cols : List (Str × List PyVal)) (c : Str),
    c ∈ cols.map Prod.fst ↔ (cols.find? (fun p => p.1 == c)).isSome = true
  | [], c => by simp
  | p :: rest, c => by
    by_cases h : p.1 = c
    · have hb : (p.1 == c) = true := by simpa using h
      simp [List.find?, hb, h]
    · have hb : (p.1 == c) = false := by simpa using h
      simp only [List.map_cons, List.mem_cons, List.find?, hb]
      rw [mem_namesList_iff_find?_isSome rest c]
      simp [Ne.symm h, fun hh : c = p.1 => h hh.symm]

theorem mem_colNames_iff_getCol_isSome (df : DF) (c : Str) :
    c ∈ colNames df ↔ (getCol df c).isSome = true := by
  unfold colNames getCol
  rw [mem_namesList_iff_find?_isSome df.cols c]
  cases df.cols.find? (fun p => p.1 == c) <;> simp

/-! Generic fold preservation lemmas, instantiated at the four loops of the
assembler. -/

theorem foldl_getCol_preserved {α : Type} (step : DF → α → DF) (key : α → Str)
    (hstep : ∀ acc x c, c ≠ key x → getCol (step acc x) c = getCol acc c) :
    ∀ (L : List α) (df : DF) (c : Str), (∀ x ∈ L, c ≠ key x) →
    getCol (L.foldl step df) c = getCol df c
  | [], df, c, _ => rfl
  | x :: rest, df, c, h => by
    rw [List.foldl_cons,
      foldl_getCol_preserved step key hstep rest (step df x) c
        (fun y hy => h y (List.mem_cons_of_mem x hy)),
      hstep df x c (h x (List.mem_cons_self x rest))]

theorem foldl_nr_preserved {α : Type} (step : DF → α → DF)
    (hstep : ∀ acc x, (step acc x).nr = acc.nr) :
    ∀ (L : List α) (df : DF), (L.foldl step df).nr = df.nr
  | [], df => rfl
  | x :: rest, df => by
    rw [List.foldl_cons, foldl_nr_preserved step hstep rest (step df x), hstep df x]

theorem foldl_mem_colNames {α : Type} (step : DF → α → DF)
    (hstep : ∀ acc x a, a ∈ colNames acc → a ∈ colNames (step acc x)) :
    ∀ (L : List α) (df : DF) (a : Str), a ∈ colNames df → a ∈ colNames (L.foldl step df)
  | [], _, _, h => h
  | x :: rest, df, a, h => by
    rw [List.foldl_cons]
    exact foldl_mem_colNames step hstep rest (step df x) a (hstep df x a h)

theorem backfillStep_eq (acc : DF) (cd : Str × Str) :
    backfillStep acc cd =
      if cd.1 ∈ colNames acc then acc
      else
        match defaultFor cd.2 with
        | some v => setCol acc cd.1 (List.replicate acc.nr v)
        | none => acc := by
  unfold backfillStep
  by_cases h : cd.1 ∈ colNames acc <;> simp [h]

theorem getCol_backfillStep_ne (acc : DF) (cd : Str × Str) (c : Str) (h : c ≠ cd.1) :
    getCol (backfillStep acc cd) c = getCol acc c := by
  rw [backfillStep_eq]
  by_cases hc : cd.1 ∈ colNames acc
  · rw [if_pos hc]
  · rw [if_neg hc]
    cases defaultFor cd.2 with
    | none => rfl
    | some v => exact getCol_setCol_ne _ _ _ _ h

theorem nr_backfillStep (acc : DF) (cd : Str × Str) : (backfillStep acc cd).nr = acc.nr := by
  rw [backfillStep_eq]
  by_cases hc : cd.1 ∈ colNames acc
  · rw [if_pos hc]
  · rw [if_neg hc]
    cases defaultFor cd.2 <;> rfl

theorem mem_colNames_backfillStep (acc : DF) (cd : Str × Str) (a : Str)
    (h : a ∈ colNames acc) : a ∈ colNames (backfillStep acc cd) := by
  rw [backfillStep_eq]
  by_cases hc : cd.1 ∈ colNames acc
  · rwa [if_pos hc]
  · rw [if_neg hc]
    cases defaultFor cd.2 with
    | none => exact h
    | some v => exact (mem_colNames_setCol _ _ _ _).mpr (Or.inr h)

theorem getCol_coerceStep_ne (acc : DF) (cd : Str × Str) (c : Str) (h : c ≠ cd.1) :
    getCol (coerceStep acc cd) c = getCol acc c :=
  getCol_mapCol_ne _ _ _ _ h

theorem nr_coerceStep (acc : DF) (cd : Str × Str) : (coerceStep acc cd).nr = acc.nr :=
  nr_mapCol _ _ _

theorem mem_colNames_coerceStep (acc : DF) (cd : Str × Str) (a : Str)
    (h : a ∈ colNames acc) : a ∈ colNames (coerceStep acc cd) :=
  mem_colNames_mapCol_of_mem _ _ _ _ h

theorem getCol_cleanColStep_ne (acc : DF) (c' c : Str) (h : c ≠ c') :
    getCol (cleanColStep acc c') c = getCol acc c := by
  unfold cleanColStep
  rw [getCol_mapCol_ne _ _ _ _ h, getCol_mapCol_ne _ _ _ _ h]

theorem mem_colNames_cleanColStep (acc : DF) (c' a : Str)
    (h : a ∈ colNames acc) : a ∈ colNames (cleanColStep acc c') :=
  mem_colNames_mapCol_of_mem _ _ _ _ (mem_colNames_mapCol_of_mem _ _ _ _ h)

theorem getCol_countStep_ne (acc : DF) (t c : Str) (h : c ≠ t ++ strL "_count") :
    getCol (countStep acc t) c = getCol acc c := by
  unfold countStep
  cases getCol acc (t ++ strL "_recipients") with
  | none => rfl
  | some vs => exact getCol_setCol_ne _ _ _ _ h

theorem mem_colNames_countStep (acc : DF) (t a : Str)
    (h : a ∈ colNames acc) : a ∈ colNames (countStep acc t) := by
  unfold countStep
  cases getCol acc (t ++ strL "_recipients") with
  | none => exact h
  | some vs => exact (mem_colNames_setCol _ _ _ _).mpr (Or.inr h)

/-- The schema declares each column name exactly once. -/
theorem schema_names_nodup : (column_definitions.map Prod.fst).Nodup := by decide

/-- Every schema dtype has a backfill default. -/
theorem schema_defaults_isSome :
    ∀ cd ∈ column_definitions, (defaultFor cd.2).isSome = true := by decide

theorem backfill_foldl_present :
    ∀ (L : List (Str × Str)) (df : DF) (c : Str), c ∈ colNames df →
    getCol (L.foldl backfillStep df) c = getCol df c
  | [], _, _, _ => rfl
  | cd :: rest, df, c, h => by
    rw [List.foldl_cons]
    have hstep : getCol (backfillStep df cd) c = getCol df c := by
      rw [backfillStep_eq]
      by_cases hc : cd.1 ∈ colNames df
      · rw [if_pos hc]
      · rw [if_neg hc]
        cases defaultFor cd.2 with
        | none => rfl
        | some v => exact getCol_setCol_ne _ _ _ _ (fun hh => hc (hh ▸ h))
    rw [backfill_foldl_present rest (backfillStep df cd) c
      (mem_colNames_backfillStep df cd c h), hstep]

theorem backfill_foldl_absent :
    ∀ (L : List (Str × Str)) (df : DF) (c d : Str),
    (c, d) ∈ L → (L.map Prod.fst).Nodup → c ∉ colNames df →
    getCol (L.foldl backfillStep df) c
      = (defaultFor d).map (fun v => List.replicate df.nr v)
  | [], _, _, _, hmem, _, _ => absurd hmem (List.not_mem_nil _)
  | cd :: rest, df, c, d, hmem, hnd, habs => by
    rw [List.foldl_cons]
    have hnd1 : cd.1 ∉ rest.map Prod.fst := (List.nodup_cons.mp (by simpa using hnd)).1
    have hnd2 : (rest.map Prod.fst).Nodup := (List.nodup_cons.mp (by simpa using hnd)).2
    rcases List.mem_cons.mp hmem with heq | hrest
    · have hc1 : cd.1 = c := by rw [← heq]
      have hcrest : ∀ x ∈ rest, c ≠ x.1 := by
        intro x hx hcx
        exact hnd1 (hc1 ▸ hcx ▸ List.mem_map_of_mem Prod.fst hx)
      rw [foldl_getCol_preserved backfillStep Prod.fst getCol_backfillStep_ne rest _ c hcrest]
      rw [backfillStep_eq, if_neg (by rw [hc1]; exact habs), ← heq]
      have hnone : getCol df c = none := by
        cases hg : getCol df c with
        | none => rfl
        | some vs =>
          exact absurd ((mem_colNames_iff_getCol_isSome df c).mpr (by simp [hg])) habs
      cases hdef : defaultFor d with
      | none => simp [hnone]
      | some v => simp [getCol_setCol_self]
    · have hc : c ∈ rest.map Prod.fst := by
        have : (c, d).1 ∈ rest.map Prod.fst := List.mem_map_of_mem Prod.fst hrest
        simpa using this
      have hne : c ≠ cd.1 := fun hh => hnd1 (hh ▸ hc)
      have habs2 : c ∉ colNames (backfillStep df cd) := by
        rw [backfillStep_eq]
        by_cases h2 : cd.1 ∈ colNames df
        · rwa [if_pos h2]
        · rw [if_neg h2]
          cases defaultFor cd.2 with
          | none => exact habs
          | some v =>
            intro hmem2
            rcases (mem_colNames_setCol _ _ _ _).mp hmem2 with h3 | h3
            · exact hne h3
            · exact habs h3
      rw [backfill_foldl_absent rest (backfillStep df cd) c d hrest hnd2 habs2,
        nr_backfillStep]

theorem backfill_foldl_mem :
    ∀ (L : List (Str × Str)) (df : DF) (c : Str),
    c ∈ L.map Prod.fst → (∀ cd ∈ L, (defaultFor cd.2).isSome = true) →
    c ∈ colNames (L.foldl backfillStep df)
  | [], _, _, hmem, _ => absurd hmem (by simp)
  | cd :: rest, df, c, hmem, hdef => by
    rw [List.foldl_cons]
    by_cases hc : c ∈ rest.map Prod.fst
    · exact backfill_foldl_mem rest (backfillStep df cd) c hc
        (fun x hx => hdef x (List.mem_cons_of_mem cd hx))
    · have hc1 : cd.1 = c := by
        rw [List.map_cons] at hmem
        rcases List.mem_cons.mp hmem with h1 | h1
        · exact h1.symm
        · exact absurd h1 hc
      have hmemstep : c ∈ colNames (backfillStep df cd) := by
        rw [backfillStep_eq]
        by_cases h2 : cd.1 ∈ colNames df
        · rw [if_pos h2]; exact hc1 ▸ h2
        · rw [if_neg h2]
          have := hdef cd (List.mem_cons_self cd rest)
          cases hdf : defaultFor cd.2 with
          | none => rw [hdf] at this; simp at this
          | some v => exact (mem_colNames_setCol _ _ _ _).mpr (Or.inl hc1.symm)
      exact foldl_mem_colNames backfillStep mem_colNames_backfillStep rest _ c hmemstep

theorem coerce_foldl_mem :
    ∀ (L : List (Str × Str)) (df : DF) (c d : Str),
    (c, d) ∈ L → (L.map Prod.fst).Nodup →
    getCol (L.foldl coerceStep df) c = (getCol df c).map (List.map (coerceFor d))
  | [], _, _, _, hmem, _ => absurd hmem (List.not_mem_nil _)
  | cd :: rest, df, c, d, hmem, hnd => by
    rw [List.foldl_cons]
    have hnd1 : cd.1 ∉ rest.map Prod.fst := (List.nodup_cons.mp (by simpa using hnd)).1
    have hnd2 : (rest.map Prod.fst).Nodup := (List.nodup_cons.mp (by simpa using hnd)).2
    rcases List.mem_cons.mp hmem with heq | hrest
    · have hcrest : ∀ x ∈ rest, c ≠ x.1 := by
        intro x hx hcx
        have hc1 : cd.1 = c := by rw [← heq]
        exact hnd1 (hc1 ▸ hcx ▸ List.mem_map_of_mem Prod.fst hx)
      rw [foldl_getCol_preserved coerceStep Prod.fst getCol_coerceStep_ne rest _ c hcrest,
        ← heq]
      exact getCol_mapCol_self df c _
    · have hc : c ∈ rest.map Prod.fst := by
        have : (c, d).1 ∈ rest.map Prod.fst := List.mem_map_of_mem Prod.fst hrest
        simpa using this
      have hne : c ≠ cd.1 := fun hh => hnd1 (hh ▸ hc)
      rw [coerce_foldl_mem rest (coerceStep df cd) c d hrest hnd2,
        getCol_coerceStep_ne df cd c hne]

/-! Stage lemmas for the cleaning and derivation passes. -/

theorem getCol_cleanTextCols_ne (df : DF) (c : Str)
    (h1 : c ≠ strL "subject") (h2 : c ≠ strL "body_text")
    (h3 : c ≠ strL "sender_name") (h4 : c ≠ strL "sender_email") :
    getCol (cleanTextCols df) c = getCol df c := by
  refine foldl_getCol_preserved cleanColStep (fun x => x)
    (fun acc x cc hh => getCol_cleanColStep_ne acc x cc hh) _ df c ?_
  intro x hx
  simp only [List.mem_cons, List.not_mem_nil, or_false] at hx
  rcases hx with rfl | rfl | rfl | rfl <;> assumption

theorem mem_colNames_cleanTextCols (df : DF) (a : Str) (h : a ∈ colNames df) :
    a ∈ colNames (cleanTextCols df) :=
  foldl_mem_colNames cleanColStep
    (fun acc x a' hh => mem_colNames_cleanColStep acc x a' hh) _ df a h

theorem getCol_lowerSender_ne (df : DF) (c : Str) (h : c ≠ strL "sender_email") :
    getCol (lowerSender df) c = getCol df c :=
  getCol_mapCol_ne _ _ _ _ h

theorem mem_colNames_lowerSender (df : DF) (a : Str) (h : a ∈ colNames df) :
    a ∈ colNames (lowerSender df) :=
  mem_colNames_mapCol_of_mem _ _ _ _ h

theorem getCol_addBodyTextClean_ne (df : DF) (c : Str) (h : c ≠ strL "body_text_clean") :
    getCol (addBodyTextClean df) c = getCol df c := by
  unfold addBodyTextClean
  cases getCol df (strL "body_text") with
  | none => rfl
  | some vs => exact getCol_setCol_ne _ _ _ _ h

theorem mem_colNames_addBodyTextClean (df : DF) (a : Str) (h : a ∈ colNames df) :
    a ∈ colNames (addBodyTextClean df) := by
  unfold addBodyTextClean
  cases getCol df (strL "body_text") with
  | none => exact h
  | some vs => exact (mem_colNames_setCol _ _ _ _).mpr (Or.inr h)

theorem getCol_clean_data_ne (df : DF) (c : Str)
    (h1 : c ≠ strL "subject") (h2 : c ≠ strL "body_text")
    (h3 : c ≠ strL "sender_name") (h4 : c ≠ strL "sender_email")
    (h5 : c ≠ strL "body_text_clean") :
    getCol (clean_data df) c = getCol df c := by
  unfold clean_data
  rw [getCol_addBodyTextClean_ne _ _ h5, getCol_lowerSender_ne _ _ h4,
    getCol_cleanTextCols_ne _ _ h1 h2 h3 h4]

theorem mem_colNames_clean_data (df : DF) (a : Str) (h : a ∈ colNames df) :
    a ∈ colNames (clean_data df) :=
  mem_colNames_addBodyTextClean _ _
    (mem_colNames_lowerSender _ _ (mem_colNames_cleanTextCols _ _ h))

theorem getCol_addAge_ne (now : Int) (df : DF) (c : Str) (h : c ≠ strL "age_days") :
    getCol (addAge now df) c = getCol df c := by
  unfold addAge
  cases getCol df (strL "received_time") with
  | none => rfl
  | some vs => exact getCol_setCol_ne _ _ _ _ h

theorem mem_colNames_addAge (now : Int) (df : DF) (a : Str) (h : a ∈ colNames df) :
    a ∈ colNames (addAge now df) := by
  unfold addAge
  cases getCol df (strL "received_time") with
  | none => exact h
  | some vs => exact (mem_colNames_setCol _ _ _ _).mpr (Or.inr h)

theorem getCol_addTimeCategory_ne (df : DF) (c : Str) (h : c ≠ strL "time_category") :
    getCol (addTimeCategory df) c = getCol df c := by
  unfold addTimeCategory
  cases getCol df (strL "hour_received") with
  | none => rfl
  | some vs => exact getCol_setCol_ne _ _ _ _ h

theorem mem_colNames_addTimeCategory (df : DF) (a : Str) (h : a ∈ colNames df) :
    a ∈ colNames (addTimeCategory df) := by
  unfold addTimeCategory
  cases getCol df (strL "hour_received") with
  | none => exact h
  | some vs => exact (mem_colNames_setCol _ _ _ _).mpr (Or.inr h)

theorem getCol_addSizeCategory_ne (df : DF) (c : Str) (h : c ≠ strL "size_category") :
    getCol (addSizeCategory df) c = getCol df c := by
  unfold addSizeCategory
  cases getCol df (strL "size") with
  | none => rfl
  | some vs => exact getCol_setCol_ne _ _ _ _ h

theorem mem_colNames_addSizeCategory (df : DF) (a : Str) (h : a ∈ colNames df) :
    a ∈ colNames (addSizeCategory df) := by
  unfold addSizeCategory
  cases getCol df (strL "size") with
  | none => exact h
  | some vs => exact (mem_colNames_setCol _ _ _ _).mpr (Or.inr h)

theorem getCol_addCounts_ne (df : DF) (c : Str)
    (h1 : c ≠ strL "to" ++ strL "_count") (h2 : c ≠ strL "cc" ++ strL "_count")
    (h3 : c ≠ strL "bcc" ++ strL "_count") :
    getCol (addCounts df) c = getCol df c := by
  refine foldl_getCol_preserved countStep (fun t => t ++ strL "_count")
    (fun acc x cc hh => getCol_countStep_ne acc x cc hh) _ df c ?_
  intro x hx
  simp only [List.mem_cons, List.not_mem_nil, or_false] at hx
  rcases hx with rfl | rfl | rfl <;> assumption

theorem mem_colNames_addCounts (df : DF) (a : Str) (h : a ∈ colNames df) :
    a ∈ colNames (addCounts df) :=
  foldl_mem_colNames countStep
    (fun acc x a' hh => mem_colNames_countStep acc x a' hh) _ df a h

theorem getCol_add_computed_ne (now : Int) (df : DF) (c : Str)
    (ha : c ≠ strL "age_days") (ht : c ≠ strL "time_category")
    (hs : c ≠ strL "size_category")
    (h1 : c ≠ strL "to" ++ strL "_count") (h2 : c ≠ strL "cc" ++ strL "_count")
    (h3 : c ≠ strL "bcc" ++ strL "_count") :
    getCol (add_computed_fields now df) c = getCol df c := by
  unfold add_computed_fields
  rw [getCol_addCounts_ne _ _ h1 h2 h3, getCol_addSizeCategory_ne _ _ hs,
    getCol_addTimeCategory_ne _ _ ht, getCol_addAge_ne _ _ _ ha]

theorem mem_colNames_add_computed (now : Int) (df : DF) (a : Str) (h : a ∈ colNames df) :
    a ∈ colNames (add_computed_fields now df) :=
  mem_colNames_addCounts _ _
    (mem_colNames_addSizeCategory _ _
      (mem_colNames_addTimeCategory _ _ (mem_colNames_addAge now _ _ h)))

theorem add_computed_time (now : Int) (df : DF) (vs : List PyVal)
    (h : getCol df (strL "hour_received") = some vs) :
    getCol (add_computed_fields now df) (strL "time_category")
      = some (vs.map categorizeCell) ∧
    getCol (add_computed_fields now df) (strL "hour_received") = some vs := by
  unfold add_computed_fields
  have h1 : getCol (addAge now df) (strL "hour_received") = some vs := by
    rw [getCol_addAge_ne _ _ _ (by decide)]
    exact h
  have h2 : addTimeCategory (addAge now df)
      = setCol (addAge now df) (strL "time_category") (vs.map categorizeCell) := by
    unfold addTimeCategory
    rw [h1]
  rw [h2]
  constructor
  · rw [getCol_addCounts_ne _ _ (by decide) (by decide) (by decide),
      getCol_addSizeCategory_ne _ _ (by decide), getCol_setCol_self]
  · rw [getCol_addCounts_ne _ _ (by decide) (by decide) (by decide),
      getCol_addSizeCategory_ne _ _ (by decide),
      getCol_setCol_ne _ _ _ _ (by decide), h1]

/-- The non-empty branch of create_dataframe is the four-stage pipeline. -/
theorem create_dataframe_eq (now : Int) (records : List Rec) (h : records ≠ []) :
    create_dataframe now records
      = add_computed_fields now
          (clean_data (apply_data_types (backfill (fromRecords records)))) := by
  unfold create_dataframe
  rw [if_neg (by simpa using h)]

theorem lookupR_eq_none_iff : ∀ (r : Rec) (k : Str),
    lookupR r k = none ↔ k ∉ r.map Prod.fst
  | [], k => by simp [lookupR]
  | p :: rest, k => by
    by_cases h : p.1 = k
    · have hb : (p.1 == k) = true := by simpa using h
      simp [lookupR, List.find?, hb, h]
    · have hb : (p.1 == k) = false := by simpa using h
      have ih := lookupR_eq_none_iff rest k
      constructor
      · intro hnone hmem
        have hmem2 : k = p.1 ∨ ∃ x, (k, x) ∈ rest := by simpa using hmem
        rcases hmem2 with h1 | ⟨x, h1⟩
        · exact h h1.symm
        · exact (ih.mp (by simpa [lookupR, List.find?, hb] using hnone))
            (List.mem_map_of_mem Prod.fst h1)
      · intro hnmem
        have hk : k ∉ rest.map Prod.fst := by
          intro hh
          exact hnmem (by rw [List.map_cons]; exact List.mem_cons_of_mem _ hh)
        have h2 := ih.mpr hk
        simpa [lookupR, List.find?, hb] using h2

theorem mem_dedupKeys_foldl :
    ∀ (l acc : List Str) (a : Str),
    a ∈ l.foldl (fun acc2 k => if acc2.contains k then acc2 else acc2 ++ [k]) acc
      ↔ a ∈ acc ∨ a ∈ l
  | [], acc, a => by simp
  | k :: rest, acc, a => by
    rw [List.foldl_cons]
    by_cases h : acc.contains k = true
    · have hmem : k ∈ acc := by simpa using h
      rw [if_pos h, mem_dedupKeys_foldl rest acc a]
      simp only [List.mem_cons]
      constructor
      · rintro (h1 | h1)
        · exact Or.inl h1
        · exact Or.inr (Or.inr h1)
      · rintro (h1 | rfl | h1)
        · exact Or.inl h1
        · exact Or.inl hmem
        · exact Or.inr h1
    · rw [if_neg h, mem_dedupKeys_foldl rest (acc ++ [k]) a]
      simp only [List.mem_append, List.mem_cons, List.mem_singleton]
      tauto

theorem mem_dedupKeys (l : List Str) (a : Str) : a ∈ dedupKeys l ↔ a ∈ l := by
  unfold dedupKeys
  rw [mem_dedupKeys_foldl l [] a]
  simp

theorem mem_colNames_fromRecords (records : List Rec) (a : Str) :
    a ∈ colNames (fromRecords records) ↔ ∃ r ∈ records, a ∈ r.map Prod.fst := by
  have hmapfst : ∀ (names : List Str) (f : Str → List PyVal),
      List.map Prod.fst (names.map (fun c => (c, f c))) = names := by
    intro names f
    induction names with
    | nil => rfl
    | cons x xs ih => simp [ih]
  have h1 : colNames (fromRecords records)
      = dedupKeys ((records.map (fun r => r.map (fun p => p.1))).flatten) := by
    unfold fromRecords colNames
    exact hmapfst _ _
  rw [h1, mem_dedupKeys]
  simp only [List.mem_flatten, List.mem_map]
  constructor
  · rintro ⟨s, ⟨r, hr, rfl⟩, ha⟩
    exact ⟨r, hr, by simpa using ha⟩
  · rintro ⟨r, hr, ha⟩
    exact ⟨r.map (fun p => p.1), ⟨r, hr, rfl⟩, by simpa using ha⟩

theorem nr_fromRecords (records : List Rec) : (fromRecords records).nr = records.length := rfl

/-- The integer coercion always produces an integer cell. -/
theorem coerceInt_shape (w : PyVal) : ∃ n : Int, coerceInt w = PyVal.int n := by
  cases w with
  | str s =>
    cases h : parseNum s with
    | none => exact ⟨0, by simp [coerceInt, h]⟩
    | some q => exact ⟨ratTrunc q, by simp [coerceInt, h]⟩
  | int n => exact ⟨n, rfl⟩
  | float q => exact ⟨ratTrunc q, rfl⟩
  | bool b => cases b <;> exact ⟨_, rfl⟩
  | dt t => exact ⟨0, rfl⟩
  | pnone => exact ⟨0, rfl⟩
  | list xs => exact ⟨0, rfl⟩
  | pdict xs => exact ⟨0, rfl⟩
  | obj attrs => exact ⟨0, rfl⟩
  | coll items => exact ⟨0, rfl⟩

/-- The present-hour equation of the categorizer. -/
theorem categorize_time_some (h : Int) :
    categorize_time (some h)
      = if 6 ≤ h ∧ h < 12 then strL "Morning"
        else if 12 ≤ h ∧ h < 17 then strL "Afternoon"
        else if 17 ≤ h ∧ h < 21 then strL "Evening"
        else strL "Night" := rfl

/-- C7: in every row of the built table, the derived time_category column
holds the bucket of the row's (integer, after coercion) received-hour cell,
where the bucketing is Morning for hours 6 to 11, Afternoon for 12 to 16,
Evening for 17 to 20, Night for any other present hour, and Unknown when
the hour is missing. -/
theorem claim_C7_time_category (now : Int) (records : List Rec) (hne : records ≠ []) :
    (∀ (i : Nat) (v : PyVal),
       getCell (create_dataframe now records) (strL "hour_received") i = some v →
       ∃ h : Int, v = PyVal.int h ∧
         getCell (create_dataframe now records) (strL "time_category") i
           = some (PyVal.str (categorize_time (some h)))) ∧
    (∀ h : Int, 6 ≤ h → h < 12 → categorize_time (some h) = strL "Morning") ∧
    (∀ h : Int, 12 ≤ h → h < 17 → categorize_time (some h) = strL "Afternoon") ∧
    (∀ h : Int, 17 ≤ h → h < 21 → categorize_time (some h) = strL "Evening") ∧
    (∀ h : Int, h < 6 ∨ 21 ≤ h → categorize_time (some h) = strL "Night") ∧
    categorize_time none = strL "Unknown" := by
  refine ⟨?_, ?_, ?_, ?_, ?_, rfl⟩
  · intro i v hv
    rw [create_dataframe_eq now records hne] at hv ⊢
    have hBmem : strL "hour_received" ∈ colNames (backfill (fromRecords records)) := by
      have hx : strL "hour_received" ∈ column_definitions.map Prod.fst := by decide
      exact backfill_foldl_mem column_definitions (fromRecords records) _ hx
        schema_defaults_isSome
    obtain ⟨vs0, hvs0⟩ : ∃ vs0,
        getCol (backfill (fromRecords records)) (strL "hour_received") = some vs0 := by
      have h2 := (mem_colNames_iff_getCol_isSome _ _).mp hBmem
      cases hg : getCol (backfill (fromRecords records)) (strL "hour_received") with
      | none => rw [hg] at h2; simp at h2
      | some vs => exact ⟨vs, rfl⟩
    have hA : getCol (apply_data_types (backfill (fromRecords records)))
        (strL "hour_received") = some (vs0.map coerceInt) := by
      have h3 := coerce_foldl_mem column_definitions (backfill (fromRecords records))
        (strL "hour_received") (strL "int64") (by decide) schema_names_nodup
      rw [hvs0] at h3
      have h4 : coerceFor (strL "int64") = coerceInt := rfl
      rw [h4] at h3
      simpa using h3
    have hC : getCol (clean_data (apply_data_types (backfill (fromRecords records))))
        (strL "hour_received") = some (vs0.map coerceInt) := by
      rw [getCol_clean_data_ne _ _ (by decide) (by decide) (by decide) (by decide)
        (by decide)]
      exact hA
    obtain ⟨htime, hhour⟩ := add_computed_time now _ _ hC
    rw [getCell, hhour] at hv
    have hv2 : (vs0.map coerceInt).get? i = some v := hv
    rw [List.get?_map] at hv2
    cases hw : vs0.get? i with
    | none => rw [hw] at hv2; simp at hv2
    | some w =>
      rw [hw] at hv2
      have hv3 : coerceInt w = v := Option.some.inj hv2
      obtain ⟨n, hn⟩ := coerceInt_shape w
      refine ⟨n, by rw [← hv3, hn], ?_⟩
      rw [getCell, htime]
      show ((vs0.map coerceInt).map categorizeCell).get? i
        = some (PyVal.str (categorize_time (some n)))
      rw [List.get?_map, List.get?_map, hw]
      show some (categorizeCell (coerceInt w)) = _
      rw [hv3, ← hv3, hn]
      rfl
  · intro h h1 h2
    rw [categorize_time_some, if_pos ⟨h1, h2⟩]
  · intro h h1 h2
    rw [categorize_time_some, if_neg (by omega), if_pos ⟨h1, h2⟩]
  · intro h h1 h2
    rw [categorize_time_some, if_neg (by omega), if_neg (by omega), if_pos ⟨h1, h2⟩]
  · intro h h1
    rw [categorize_time_some, if_neg (by omega), if_neg (by omega), if_neg (by omega)]

/-- Witness for C7: a single record whose received hour is eight lands in
the Morning bucket of the built table. -/
theorem claim_C7_witness :
    ∃ h : Int, PyVal.int 8 = PyVal.int h ∧
      getCell (create_dataframe 0 [[(strL "hour_received", PyVal.int 8)]])
          (strL "time_category") 0
        = some (PyVal.str (categorize_time (some h))) :=
  (claim_C7_time_category 0 [[(strL "hour_received", PyVal.int 8)]]
      (List.cons_ne_nil _ _)).1 0 (PyVal.int 8) (by rfl)

/-- C6 (amended): the built table always has a domain column, but it is
never derived from sender_email: when the input records do not supply a
domain key (as mapper records never do), every row of the domain column
holds the back-filled empty string, not the substring of sender_email after
the at sign. -/
theorem claim_C6_amended (now : Int) (records : List Rec) (hne : records ≠ [])
    (hnd : ∀ r ∈ records, lookupR r (strL "domain") = none) :
    getCol (create_dataframe now records) (strL "domain")
      = some (List.replicate records.length (PyVal.str [])) := by
  rw [create_dataframe_eq now records hne]
  have habs : strL "domain" ∉ colNames (fromRecords records) := by
    rw [mem_colNames_fromRecords]
    rintro ⟨r, hr, hk⟩
    exact (lookupR_eq_none_iff r (strL "domain")).mp (hnd r hr) hk
  have hB := backfill_foldl_absent column_definitions (fromRecords records)
    (strL "domain") (strL "str") (by decide) schema_names_nodup habs
  rw [nr_fromRecords] at hB
  have hB2 : getCol (backfill (fromRecords records)) (strL "domain")
      = some (List.replicate records.length (PyVal.str [])) := by
    rw [show backfill (fromRecords records)
        = column_definitions.foldl backfillStep (fromRecords records) from rfl, hB]
    rfl
  have hA := coerce_foldl_mem column_definitions (backfill (fromRecords records))
    (strL "domain") (strL "str") (by decide) schema_names_nodup
  rw [hB2] at hA
  have hA2 : getCol (apply_data_types (backfill (fromRecords records))) (strL "domain")
      = some (List.replicate records.length (PyVal.str [])) := by
    rw [show apply_data_types (backfill (fromRecords records))
        = column_definitions.foldl coerceStep (backfill (fromRecords records)) from rfl,
      hA]
    simp only [Option.map_some', List.map_replicate]
    rfl
  rw [getCol_add_computed_ne now _ _ (by decide) (by decide) (by decide) (by decide)
    (by decide) (by decide)]
  rw [getCol_clean_data_ne _ _ (by decide) (by decide) (by decide) (by decide) (by decide)]
  exact hA2

/-- Witness for C6: one record carrying only a sender email; the domain
column of the built table holds the empty string. -/
theorem claim_C6_witness :
    getCol (create_dataframe 0 [[(strL "sender_email", PyVal.str (strL "a@b.com"))]])
        (strL "domain") = some (List.replicate 1 (PyVal.str [])) :=
  claim_C6_amended 0 [[(strL "sender_email", PyVal.str (strL "a@b.com"))]]
    (List.cons_ne_nil _ _)
    (by
      intro r hr
      rw [List.mem_singleton] at hr
      subst hr
      rfl)

/-- C6 counterexample: for the sender email a@b.com the claim says the
domain cell should be the substring after the at sign, but the built table
holds the empty string. -/
theorem claim_C6_counterexample :
    getCell (create_dataframe 0 [[(strL "sender_email", PyVal.str (strL "a@b.com"))]])
        (strL "domain") 0
      ≠ some (PyVal.str (specDomainOfSenderEmail (strL "a@b.com"))) := by
  intro h
  rw [show getCell (create_dataframe 0
      [[(strL "sender_email", PyVal.str (strL "a@b.com"))]]) (strL "domain") 0
      = some (PyVal.str []) from rfl] at h
  rw [show specDomainOfSenderEmail (strL "a@b.com") = strL "b.com" from rfl] at h
  exact absurd (PyVal.str.inj (Option.some.inj h)) (by decide)

/-- C1 (amended): the built table always contains every fixed-schema column
(missing ones are back-filled with type-appropriate defaults before the
derived computation), but not exactly those: any key populated by an input
record also appears as a column, and the derivation pass adds further
columns, so columns outside the fixed schema can appear in the output. -/
theorem claim_C1_amended (now : Int) (records : List Rec) (hne : records ≠ []) :
    (∀ c ∈ schemaCols, c ∈ colNames (create_dataframe now records)) ∧
    (∀ r ∈ records, ∀ k ∈ r.map Prod.fst, k ∈ colNames (create_dataframe now records)) := by
  rw [create_dataframe_eq now records hne]
  have hchain : ∀ a : Str, a ∈ colNames (backfill (fromRecords records)) →
      a ∈ colNames (add_computed_fields now
        (clean_data (apply_data_types (backfill (fromRecords records))))) := by
    intro a ha
    exact mem_colNames_add_computed now _ _
      (mem_colNames_clean_data _ _
        (foldl_mem_colNames coerceStep
          (fun acc x a' hh => mem_colNames_coerceStep acc x a' hh) _ _ a ha))
  constructor
  · intro c hc
    exact hchain c (backfill_foldl_mem _ _ c hc schema_defaults_isSome)
  · intro r hr k hk
    have h0 : k ∈ colNames (fromRecords records) :=
      (mem_colNames_fromRecords records k).mpr ⟨r, hr, hk⟩
    exact hchain k (foldl_mem_colNames backfillStep mem_colNames_backfillStep _ _ k h0)

/-- C1 counterexample: an input record populating a key outside the fixed
schema (the error marker that the mapper's error records carry) yields a
table with that extra column, so the output does not contain exactly the
schema's columns. -/
theorem claim_C1_counterexample :
    strL "error" ∈ colNames (create_dataframe 0 [[(strL "error", PyVal.bool true)]]) ∧
    strL "error" ∉ schemaCols := by
  constructor
  · decide
  · decide

/-- Witness for C1: on a record populating only the subject key, the
schema column domain is present (back-filled) and the input key subject is
present. -/
theorem claim_C1_witness :
    strL "domain" ∈ colNames (create_dataframe 0 [[(strL "subject", PyVal.str (strL "hi"))]]) ∧
    strL "subject" ∈ colNames (create_dataframe 0 [[(strL "subject", PyVal.str (strL "hi"))]]) :=
  ⟨(claim_C1_amended 0 [[(strL "subject", PyVal.str (strL "hi"))]]
      (List.cons_ne_nil _ _)).1 (strL "domain") (by decide),
   (claim_C1_amended 0 [[(strL "subject", PyVal.str (strL "hi"))]]
      (List.cons_ne_nil _ _)).2 [(strL "subject", PyVal.str (strL "hi"))]
      (List.mem_singleton.mpr rfl) (strL "subject") (by decide)⟩

/-! Inversion of the body-processing chain. -/

theorem process_email_body_ok_inv (hb tb : PyVal) (pb : Rec)
    (h : process_email_body hb tb = .ok pb) :
    ∃ emails phones urls stats kws llm : PyVal,
      pb = [(strL "cleaned_html", cleanedHtmlOf hb),
            (strL "cleaned_text", cleanedTextOf tb),
            (strL "email_addresses", emails),
            (strL "phone_numbers", phones),
            (strL "urls", urls),
            (strL "statistics", stats),
            (strL "keywords", kws),
            (strL "llm_optimized_text", llm)] ∧
      extract_email_addresses (analysisTextOf hb tb) = .ok emails ∧
      pySlice (analysisTextOf hb tb) 10000 = .ok llm := by
  unfold process_email_body at h
  simp only [bind, Except.bind, pure, Except.pure] at h
  cases h1 : extract_email_addresses (analysisTextOf hb tb) with
  | error e => simp [h1] at h
  | ok emails =>
    cases h2 : extract_phone_numbers (analysisTextOf hb tb) with
    | error e => simp [h1, h2] at h
    | ok phones =>
      cases h3 : extract_urls (analysisTextOf hb tb) with
      | error e => simp [h1, h2, h3] at h
      | ok urls =>
        cases h4 : get_text_statistics (analysisTextOf hb tb) with
        | error e => simp [h1, h2, h3, h4] at h
        | ok stats =>
          cases h5 : extract_keywords (analysisTextOf hb tb) 3 with
          | error e => simp [h1, h2, h3, h4, h5] at h
          | ok kws =>
            cases h6 : pySlice (analysisTextOf hb tb) 10000 with
            | error e => simp [h1, h2, h3, h4, h5, h6] at h
            | ok llm =>
              simp only [h1, h2, h3, h4, h5, h6] at h
              refine ⟨emails, phones, urls, stats, kws, llm, ?_, rfl, rfl⟩
              exact (Except.ok.inj h).symm

/-- Shape of the cleaned HTML: a string, or the original truthy value. -/
theorem cleanedHtmlOf_shape (hb : PyVal) :
    (∃ s, cleanedHtmlOf hb = PyVal.str s) ∨ truthy (cleanedHtmlOf hb) = true := by
  unfold cleanedHtmlOf
  by_cases h : truthy hb = true
  · rw [if_pos h]
    unfold clean_html_content
    rw [if_neg (by simp [h])]
    cases hb with
    | str s => exact Or.inl ⟨_, rfl⟩
    | int n => exact Or.inr h
    | float q => exact Or.inr h
    | bool b => exact Or.inr h
    | dt t => exact Or.inr h
    | pnone => exact Or.inr h
    | list xs => exact Or.inr h
    | pdict xs => exact Or.inr h
    | obj attrs => exact Or.inr h
    | coll items => exact Or.inr h
  · rw [if_neg h]
    exact Or.inl ⟨[], rfl⟩

/-- The analysis text is a string or a truthy value. -/
theorem analysisTextOf_shape (hb tb : PyVal) :
    (∃ s, analysisTextOf hb tb = PyVal.str s) ∨ truthy (analysisTextOf hb tb) = true := by
  unfold analysisTextOf
  by_cases h : truthy (cleanedTextOf tb) = true
  · rw [if_pos h]
    exact Or.inr h
  · rw [if_neg h]
    exact cleanedHtmlOf_shape hb

/-- A successful email extraction means the analysis value was falsy or a
string. -/
theorem extract_email_ok_shape (A x : PyVal) (h : extract_email_addresses A = .ok x) :
    truthy A = false ∨ ∃ s, A = PyVal.str s := by
  unfold extract_email_addresses at h
  by_cases ht : truthy A = true
  · rw [if_neg (by simp [ht])] at h
    cases A with
    | str s => exact Or.inr ⟨s, rfl⟩
    | int n => exact absurd h (by simp)
    | float q => exact absurd h (by simp)
    | bool b => exact absurd h (by simp)
    | dt t => exact absurd h (by simp)
    | pnone => exact absurd h (by simp)
    | list xs => exact absurd h (by simp)
    | pdict xs => exact absurd h (by simp)
    | obj attrs => exact absurd h (by simp)
    | coll items => exact absurd h (by simp)
  · exact Or.inl (by simpa using ht)

/-- C5: whenever the body processor returns a record, its llm_optimized_text
field is a string of length at most ten thousand characters. -/
theorem claim_C5_truncation (html_body text_body : PyVal) (r : Rec) (v : PyVal)
    (hok : process_email_body html_body text_body = Except.ok r)
    (hv : lookupR r (strL "llm_optimized_text") = some v) :
    ∃ s : Str, v = PyVal.str s ∧ s.length ≤ 10000 := by
  obtain ⟨emails, phones, urls, stats, kws, llm, hpb, hex, hsl⟩ :=
    process_email_body_ok_inv html_body text_body r hok
  subst hpb
  have hv2 : v = llm := by
    rw [show lookupR
        [(strL "cleaned_html", cleanedHtmlOf html_body),
         (strL "cleaned_text", cleanedTextOf text_body),
         (strL "email_addresses", emails),
         (strL "phone_numbers", phones),
         (strL "urls", urls),
         (strL "statistics", stats),
         (strL "keywords", kws),
         (strL "llm_optimized_text", llm)] (strL "llm_optimized_text") = some llm
      from rfl] at hv
    exact (Option.some.inj hv).symm
  have hstr : ∃ s, analysisTextOf html_body text_body = PyVal.str s := by
    rcases analysisTextOf_shape html_body text_body with h | htA
    · exact h
    · rcases extract_email_ok_shape _ _ hex with hf | h
      · rw [htA] at hf
        exact absurd hf (by simp)
      · exact h
  obtain ⟨s, hsA⟩ := hstr
  rw [hsA] at hsl
  have hllm : llm = PyVal.str (s.take 10000) := by
    have h7 : pySlice (PyVal.str s) 10000 = .ok (PyVal.str (s.take 10000)) := rfl
    rw [h7] at hsl
    exact (Except.ok.inj hsl).symm
  refine ⟨s.take 10000, by rw [hv2, hllm], ?_⟩
  rw [List.length_take]
  exact min_le_left _ _

/-- Witness for C5: on empty bodies the processor succeeds and the LLM text
is the empty string, of length zero. -/
theorem claim_C5_witness :
    ∃ s : Str, PyVal.str [] = PyVal.str s ∧ s.length ≤ 10000 :=
  claim_C5_truncation (PyVal.str []) (PyVal.str [])
    [(strL "cleaned_html", PyVal.str []),
     (strL "cleaned_text", PyVal.str []),
     (strL "email_addresses", PyVal.list []),
     (strL "phone_numbers", PyVal.list []),
     (strL "urls", PyVal.list []),
     (strL "statistics", PyVal.pdict
       [(strL "character_count", PyVal.int 0), (strL "word_count", PyVal.int 0),
        (strL "sentence_count", PyVal.int 0), (strL "paragraph_count", PyVal.int 0)]),
     (strL "keywords", PyVal.list []),
     (strL "llm_optimized_text", PyVal.str [])]
    (PyVal.str []) (by rfl) (by rfl)

/-- C2 (amended): every success record of the mapper populates a fixed
36-key set that includes all the claimed fields except that the reply and
forward markers are stored under is_replied and is_forwarded (there are no
is_reply and is_forward keys); the error record populates only the 19-field
core plus the error marker and message, omitting attachment_names,
attachment_sizes, the reply and forward markers, priority, day_of_week and
hour_of_day, so partial records do leave the mapper on the failure path. -/
theorem claim_C2_amended (mail_item : PyVal) (folder_name msg : Str) :
    (∀ r : Rec, process_email_item_body mail_item folder_name = .ok r →
        r.map Prod.fst = mapperSuccessKeys) ∧
    (create_error_record folder_name msg).map Prod.fst = errorRecordKeys ∧
    strL "attachment_names" ∉ errorRecordKeys ∧
    strL "attachment_sizes" ∉ errorRecordKeys ∧
    strL "priority" ∉ errorRecordKeys ∧
    strL "day_of_week" ∉ errorRecordKeys ∧
    strL "hour_of_day" ∉ errorRecordKeys ∧
    strL "is_reply" ∉ mapperSuccessKeys ∧
    strL "is_replied" ∈ mapperSuccessKeys ∧
    strL "attachment_names" ∈ mapperSuccessKeys := by
  refine ⟨?_, rfl, by decide, by decide, by decide, by decide, by decide, by decide,
    by decide, by decide⟩
  intro r h
  unfold process_email_item_body at h
  simp only [bind, Except.bind, pure, Except.pure] at h
  cases h1 : process_email_body (safeGet mail_item (strL "HTMLBody") (PyVal.str []))
      (safeGet mail_item (strL "Body") (PyVal.str [])) with
  | error e => simp [h1] at h
  | ok pb =>
    cases h2 : get_priority_text (safeGet mail_item (strL "Importance") (PyVal.int 1)) with
    | error e => simp [h1, h2] at h
    | ok priority =>
      simp only [h1, h2] at h
      obtain ⟨emails, phones, urls, stats, kws, llm, hpb, -, -⟩ :=
        process_email_body_ok_inv _ _ _ h1
      subst hpb
      rw [← Except.ok.inj h]
      rfl

/-- C2 counterexample: on an item whose HTML body is a truthy COM object the
mapper takes the error path, and the record it returns has no
attachment_names key, so a record missing required fields does leave the
mapper. -/
theorem claim_C2_counterexample :
    strL "attachment_names" ∉
      (process_email_item (PyVal.obj [(strL "HTMLBody", Sum.inr (PyVal.obj []))])
        (strL "Inbox")).map Prod.fst := by
  decide

/-- Witness for C2: on an attribute-less item the mapper succeeds and its
record carries exactly the fixed success keys. -/
theorem claim_C2_witness :
    (process_email_item (PyVal.obj []) (strL "Inbox")).map Prod.fst = mapperSuccessKeys :=
  (claim_C2_amended (PyVal.obj []) (strL "Inbox") []).1
    (process_email_item (PyVal.obj []) (strL "Inbox")) (by rfl)

/-! Whitespace-discipline lemmas for the idempotence analysis of the plain
text cleaner. -/

set_option maxHeartbeats 2000000 in
theorem unescape_cons_ne (c : Char) (rest : Str) :
    ¬c = '&' → unescape (c :: rest) = c :: unescape rest := by
  intro hc
  conv_lhs => rw [unescape.eq_def]
  split
  next heq => exact absurd heq (List.cons_ne_nil c rest)
  next c2 rest2 heq =>
    injection heq with h1 h2
    subst h1
    subst h2
    rw [if_neg hc]

theorem unescape_eq_self : ∀ s : Str, '&' ∉ s → unescape s = s
  | [], _ => rfl
  | c :: rest, h => by
    have hc : ¬c = '&' := fun hh => h (hh ▸ List.mem_cons_self c rest)
    have hr : '&' ∉ rest := fun hh => h (List.mem_cons_of_mem c hh)
    rw [unescape_cons_ne c rest hc]
    exact congrArg (c :: ·) (unescape_eq_self rest hr)

theorem mem_collapseAux : ∀ (b : Bool) (s : Str) (a : Char),
    a ∈ collapseAux b s → a = ' ' ∨ a ∈ s
  | _, [], a, h => absurd h (List.not_mem_nil a)
  | b, c :: rest, a, h => by
    by_cases hc : isSpace c = true
    · cases b with
      | true =>
        rw [show collapseAux true (c :: rest) = collapseAux true rest from by
          simp [collapseAux, hc]] at h
        rcases mem_collapseAux true rest a h with h1 | h1
        · exact Or.inl h1
        · exact Or.inr (List.mem_cons_of_mem c h1)
      | false =>
        rw [show collapseAux false (c :: rest) = ' ' :: collapseAux true rest from by
          simp [collapseAux, hc]] at h
        rcases List.mem_cons.mp h with h1 | h1
        · exact Or.inl h1
        · rcases mem_collapseAux true rest a h1 with h2 | h2
          · exact Or.inl h2
          · exact Or.inr (List.mem_cons_of_mem c h2)
    · rw [show collapseAux b (c :: rest) = c :: collapseAux false rest from by
        cases b <;> simp [collapseAux, hc]] at h
      rcases List.mem_cons.mp h with h1 | h1
      · exact Or.inr (h1 ▸ List.mem_cons_self c rest)
      · rcases mem_collapseAux false rest a h1 with h2 | h2
        · exact Or.inl h2
        · exact Or.inr (List.mem_cons_of_mem c h2)

theorem collapseAux_spaces : ∀ (b : Bool) (s : Str) (a : Char),
    a ∈ collapseAux b s → isSpace a = true → a = ' '
  | _, [], a, h, _ => absurd h (List.not_mem_nil a)
  | b, c :: rest, a, h, hsp => by
    by_cases hc : isSpace c = true
    · cases b with
      | true =>
        rw [show collapseAux true (c :: rest) = collapseAux true rest from by
          simp [collapseAux, hc]] at h
        exact collapseAux_spaces true rest a h hsp
      | false =>
        rw [show collapseAux false (c :: rest) = ' ' :: collapseAux true rest from by
          simp [collapseAux, hc]] at h
        rcases List.mem_cons.mp h with h1 | h1
        · exact h1
        · exact collapseAux_spaces true rest a h1 hsp
    · rw [show collapseAux b (c :: rest) = c :: collapseAux false rest from by
        cases b <;> simp [collapseAux, hc]] at h
      rcases List.mem_cons.mp h with h1 | h1
      · exact absurd (h1 ▸ hsp) hc
      · exact collapseAux_spaces false rest a h1 hsp

theorem head?_not_space (l : Str) (h : headNotSpace l) :
    ∀ y ∈ l.head?, isSpace y = false := by
  cases l with
  | nil => intro y hy; simp at hy
  | cons c rest =>
    intro y hy
    have hyc : c = y := by simpa using hy
    exact hyc ▸ h

theorem collapseAux_chain : ∀ s : Str,
    List.Chain' (fun a b => ¬(isSpace a = true ∧ isSpace b = true)) (collapseAux false s) ∧
    (List.Chain' (fun a b => ¬(isSpace a = true ∧ isSpace b = true)) (collapseAux true s) ∧
     headNotSpace (collapseAux true s))
  | [] => ⟨List.chain'_nil, List.chain'_nil, trivial⟩
  | c :: rest => by
    obtain ⟨ih1, ih2, ih3⟩ := collapseAux_chain rest
    by_cases hc : isSpace c = true
    · have e1 : collapseAux false (c :: rest) = ' ' :: collapseAux true rest := by
        simp [collapseAux, hc]
      have e2 : collapseAux true (c :: rest) = collapseAux true rest := by
        simp [collapseAux, hc]
      refine ⟨?_, ?_, ?_⟩
      · rw [e1, List.chain'_cons']
        refine ⟨?_, ih2⟩
        intro y hy hcon
        have hf := head?_not_space _ ih3 y hy
        rw [hf] at hcon
        exact Bool.noConfusion hcon.2
      · rw [e2]; exact ih2
      · rw [e2]; exact ih3
    · have e1 : collapseAux false (c :: rest) = c :: collapseAux false rest := by
        simp [collapseAux, hc]
      have e2 : collapseAux true (c :: rest) = c :: collapseAux false rest := by
        simp [collapseAux, hc]
      have hch : List.Chain' (fun a b => ¬(isSpace a = true ∧ isSpace b = true))
          (c :: collapseAux false rest) := by
        rw [List.chain'_cons']
        exact ⟨fun y _ hcon => hc hcon.1, ih1⟩
      refine ⟨by rw [e1]; exact hch, by rw [e2]; exact hch, ?_⟩
      rw [e2]
      exact Bool.eq_false_iff.mpr hc

theorem collapse_eq_self_core : ∀ s : Str,
    (∀ c ∈ s, isSpace c = true → c = ' ') →
    List.Chain' (fun a b => ¬(isSpace a = true ∧ isSpace b = true)) s →
    collapseAux false s = s ∧ (headNotSpace s → collapseAux true s = s)
  | [], _, _ => ⟨rfl, fun _ => rfl⟩
  | c :: rest, hsp, hch => by
    have hsp2 : ∀ c2 ∈ rest, isSpace c2 = true → c2 = ' ' :=
      fun c2 h2 => hsp c2 (List.mem_cons_of_mem c h2)
    obtain ⟨ih1, ih2⟩ := collapse_eq_self_core rest hsp2 hch.tail
    by_cases hc : isSpace c = true
    · have hcsp : c = ' ' := hsp c (List.mem_cons_self c rest) hc
      have hrest_head : headNotSpace rest := by
        rcases List.chain'_cons'.mp hch with ⟨hhd, -⟩
        cases rest with
        | nil => trivial
        | cons d r =>
          have hdr := hhd d (by simp)
          show isSpace d = false
          by_cases hd : isSpace d = true
          · exact absurd ⟨hc, hd⟩ hdr
          · exact Bool.eq_false_iff.mpr hd
      constructor
      · have e1 : collapseAux false (c :: rest) = ' ' :: collapseAux true rest := by
          simp [collapseAux, hc]
        rw [e1, ih2 hrest_head, hcsp]
      · intro hhns
        have hf : isSpace c = false := hhns
        rw [hf] at hc
        exact Bool.noConfusion hc
    · have e1 : collapseAux false (c :: rest) = c :: collapseAux false rest := by
        simp [collapseAux, hc]
      have e2 : collapseAux true (c :: rest) = c :: collapseAux false rest := by
        simp [collapseAux, hc]
      exact ⟨by rw [e1, ih1], fun _ => by rw [e2, ih1]⟩

theorem chain'_dropWhile {R : Char → Char → Prop} (p : Char → Bool) :
    ∀ l : Str, List.Chain' R l → List.Chain' R (l.dropWhile p)
  | [], h => h
  | c :: rest, h => by
    rw [List.dropWhile_cons]
    by_cases hc : p c = true
    · rw [if_pos hc]
      exact chain'_dropWhile p rest h.tail
    · rw [if_neg hc]
      exact h

theorem chain'_rev_of_symm {R : Char → Char → Prop}
    (hsymm : ∀ a b, R a b → R b a) (l : Str) (h : List.Chain' R l) :
    List.Chain' R l.reverse := by
  rw [List.chain'_reverse]
  exact h.imp (fun a b hab => hsymm a b hab)

theorem chain'_stripStr {R : Char → Char → Prop}
    (hsymm : ∀ a b, R a b → R b a) (l : Str) (h : List.Chain' R l) :
    List.Chain' R (stripStr l) := by
  unfold stripStr stripTrail
  exact chain'_rev_of_symm hsymm _
    (chain'_dropWhile _ _ (chain'_rev_of_symm hsymm _ (chain'_dropWhile _ _ h)))

theorem mem_stripStr_subset (l : Str) (a : Char) (h : a ∈ stripStr l) : a ∈ l := by
  unfold stripStr stripTrail at h
  rw [List.mem_reverse] at h
  have h2 := (List.dropWhile_suffix isSpace).sublist.subset h
  rw [List.mem_reverse] at h2
  exact (List.dropWhile_suffix isSpace).sublist.subset h2

theorem headNotSpace_dropWhile : ∀ l : Str, headNotSpace (l.dropWhile isSpace)
  | [] => trivial
  | c :: rest => by
    rw [List.dropWhile_cons]
    by_cases hc : isSpace c = true
    · rw [if_pos hc]
      exact headNotSpace_dropWhile rest
    · rw [if_neg hc]
      exact Bool.eq_false_iff.mpr hc

theorem dropWhile_eq_self_of_head (l : Str) (h : headNotSpace l) :
    l.dropWhile isSpace = l := by
  cases l with
  | nil => rfl
  | cons c rest =>
    have hf : isSpace c = false := h
    rw [List.dropWhile_cons, if_neg (by simp [hf])]

theorem headNotSpace_of_isPre (l1 l2 : Str) (hpre : l1 <+: l2) (h : headNotSpace l2) :
    headNotSpace l1 := by
  cases l1 with
  | nil => trivial
  | cons c rest =>
    obtain ⟨t, ht⟩ := hpre
    rw [← ht] at h
    exact h

theorem stripTrail_isPre (l : Str) : stripTrail l <+: l := by
  unfold stripTrail
  simpa using List.reverse_prefix.mpr (List.dropWhile_suffix (l := l.reverse) isSpace)

theorem dropWhile_space_idem (l : Str) :
    (l.dropWhile isSpace).dropWhile isSpace = l.dropWhile isSpace :=
  dropWhile_eq_self_of_head _ (headNotSpace_dropWhile l)

theorem stripTrail_idem (m : Str) : stripTrail (stripTrail m) = stripTrail m := by
  unfold stripTrail
  rw [List.reverse_reverse, dropWhile_space_idem]

theorem stripStr_idem (l : Str) : stripStr (stripStr l) = stripStr l := by
  have hhead : headNotSpace (stripStr l) := by
    unfold stripStr
    exact headNotSpace_of_isPre _ _ (stripTrail_isPre _) (headNotSpace_dropWhile l)
  rw [show stripStr (stripStr l) = stripTrail ((stripStr l).dropWhile isSpace) from rfl,
    dropWhile_eq_self_of_head _ hhead,
    show stripStr l = stripTrail (l.dropWhile isSpace) from rfl,
    stripTrail_idem]

/-- On all-allowed input the cleaner is entity decoding and filtering free:
it is exactly collapse-then-strip. -/
theorem clean_plain_text_allowed_eq (y : Str)
    (hy : ∀ c ∈ y, isAllowedChar c = true) :
    clean_plain_text y = stripStr (collapse y) := by
  unfold clean_plain_text
  by_cases he : y.isEmpty
  · rw [if_pos he]
    have hnil : y = [] := by simpa using he
    rw [hnil]
    rfl
  · rw [if_neg he]
    unfold cleanPlainCore
    have hamp : '&' ∉ y := by
      intro hh
      exact absurd (hy '&' hh) (by decide)
    rw [unescape_eq_self y hamp]
    have hall : ∀ c ∈ collapse y, isAllowedChar c = true := by
      intro c hc
      rcases mem_collapseAux false y c hc with h1 | h1
      · rw [h1]; decide
      · exact hy c h1
    rw [List.filter_eq_self.mpr hall]

/-- The cleaner is idempotent on all-allowed input. -/
theorem clean_clean_of_allowed (y : Str) (hy : ∀ c ∈ y, isAllowedChar c = true) :
    clean_plain_text (clean_plain_text y) = clean_plain_text y := by
  rw [clean_plain_text_allowed_eq y hy]
  have hzallowed : ∀ c ∈ stripStr (collapse y), isAllowedChar c = true := by
    intro c hc
    rcases mem_collapseAux false y c (mem_stripStr_subset _ _ hc) with h1 | h1
    · rw [h1]; decide
    · exact hy c h1
  rw [clean_plain_text_allowed_eq _ hzallowed]
  have hsp : ∀ c ∈ stripStr (collapse y), isSpace c = true → c = ' ' := by
    intro c hc hs
    exact collapseAux_spaces false y c (mem_stripStr_subset _ _ hc) hs
  have hch : List.Chain' (fun a b => ¬(isSpace a = true ∧ isSpace b = true))
      (stripStr (collapse y)) := by
    refine chain'_stripStr ?_ _ (collapseAux_chain y).1
    intro a b hab hcon
    exact hab ⟨hcon.2, hcon.1⟩
  rw [show collapse (stripStr (collapse y)) = stripStr (collapse y) from
    (collapse_eq_self_core _ hsp hch).1]
  exact stripStr_idem _

/-- C9 (amended): the plain-text cleaner is not idempotent (see the
counterexample: dropping a disallowed character can leave adjacent spaces),
but it is idempotent from the second application onward: a third pass never
changes the result of the second. -/
theorem claim_C9_amended (x : Str) :
    clean_plain_text (clean_plain_text (clean_plain_text x))
      = clean_plain_text (clean_plain_text x) := by
  apply clean_clean_of_allowed
  intro c hc
  unfold clean_plain_text at hc
  by_cases he : x.isEmpty
  · rw [if_pos he] at hc
    exact absurd hc (List.not_mem_nil c)
  · rw [if_neg he] at hc
    unfold cleanPlainCore at hc
    exact List.of_mem_filter (mem_stripStr_subset _ _ hc)

end O2A





